import Mathlib

/-!
Verification of the CRM data generator (`generate_data.py`).

This file is a shallow embedding of the parts of the generator that carry the
program's invariants: the schema constants, the dependency resolver, the
table-spec parser, the per-table record generators, and the execution driver.

Modelling conventions:
* Table names are Lean `String`s, as in the Python source.
* Python's unbounded `while` loops are modelled with an explicit fuel
  parameter; a `none` result encodes that the corresponding Python loop never
  exits (the source has no cycle guard and no retry bound).
* Randomness (`random.choice`, `random.randint`, Faker values) is modelled by
  explicitly passed streams of values; `random.choice` on a list becomes a
  lookup at an arbitrary supplied index modulo the list length, which returns
  `none` exactly when the list is empty (Python raises `IndexError` there).
* Database-generated primary keys (`RETURNING id`) are modelled by an
  externally supplied stream of identifiers.
-/

set_option maxHeartbeats 1600000

namespace CrmGen

/-- `ALL_TABLES` from `generate_data.py`: the fixed eight-table enumeration. -/
def ALL_TABLES : List String :=
  ["companies", "contacts", "deals", "products", "deal_products", "activities", "notes", "tasks"]

/-- `TABLE_DEPENDENCIES.get(table, [])`: direct dependencies of each table.
Unknown table names map to `[]`, mirroring the `dict.get` default used at every
access site in the source. -/
def TABLE_DEPENDENCIES (t : String) : List String :=
  if t = "companies" then []
  else if t = "contacts" then ["companies"]
  else if t = "deals" then ["companies", "contacts"]
  else if t = "products" then []
  else if t = "deal_products" then ["deals", "products"]
  else if t = "activities" then ["contacts"]
  else if t = "notes" then ["contacts"]
  else if t = "tasks" then ["deals"]
  else []

/-- The `DEFAULT_COUNTS` dict: built-in default record count per table. -/
def DEFAULT_COUNTS (t : String) : Option Int :=
  if t = "companies" then some 100
  else if t = "contacts" then some 500
  else if t = "deals" then some 200
  else if t = "products" then some 50
  else if t = "deal_products" then some 300
  else if t = "activities" then some 400
  else if t = "notes" then some 300
  else if t = "tasks" then some 150
  else none

/-- `DEFAULT_COUNTS.get(table, 100)` as used by the parser and the driver. -/
def defaultCountOf (t : String) : Int := (DEFAULT_COUNTS t).getD 100

/-! ## Dependency resolver (`resolve_dependencies`, lines 574-613) -/

/-- One pass of the closure-building `while added` loop: add every direct
dependency of every table already in the working set. -/
def closureStep (s : Finset String) : Finset String :=
  s ∪ s.biUnion (fun t => (TABLE_DEPENDENCIES t).toFinset)

/-- The `while added` loop: repeat `closureStep` until a pass adds nothing.
The loop is fuelled; every dependency lies in the eight-table universe, so a
fixed point is always reached within eight proper steps (proved below), making
fuel 9 a faithful rendering of the unbounded source loop. -/
def closureFrom : Nat → Finset String → Finset String
  | 0, s => s
  | n + 1, s => if closureStep s = s then s else closureFrom n (closureStep s)

/-- The full closure-building phase of `resolve_dependencies`. -/
def depClosure (tables : List String) : Finset String :=
  closureFrom 9 tables.toFinset

/-- The eligibility test of the ordering loop: every dependency of `t` is
either already placed in `ordered` or outside the closure `tg`. -/
def placeable (ordered : List String) (tg : Finset String) (t : String) : Bool :=
  (TABLE_DEPENDENCIES t).all (fun d => decide (d ∈ ordered) || !(decide (d ∈ tg)))

/-- One scan of `for table in ALL_TABLES` inside the ordering loop: the first
not-yet-placed closure member whose dependencies are all satisfied. -/
def findPlaceable (ordered : List String) (remaining tg : Finset String) : Option String :=
  ALL_TABLES.find? (fun t => decide (t ∈ remaining) && placeable ordered tg t)

/-- The `while remaining` ordering loop of `resolve_dependencies`.  Each
iteration places exactly one table (the `break` in the source restarts the
scan), so fuel `remaining.card + 1` is enough for every terminating run; a
`none` result encodes the source looping forever because a full scan placed
nothing. -/
def orderLoop : Nat → List String → Finset String → Finset String → Option (List String)
  | 0, ordered, remaining, _ => if remaining = ∅ then some ordered else none
  | fuel + 1, ordered, remaining, tg =>
    if remaining = ∅ then some ordered
    else
      match findPlaceable ordered remaining tg with
      | some t => orderLoop fuel (ordered ++ [t]) (remaining.erase t) tg
      | none => none

/-- `resolve_dependencies(tables, include_deps)`.  `none` encodes the
non-terminating behaviour of the source's ordering loop. -/
def resolve_dependencies (tables : List String) (include_deps : Bool) : Option (List String) :=
  if include_deps then
    let tg := depClosure tables
    orderLoop (tg.card + 1) [] tg tg
  else some tables

/-- The transitive closure of a requested set under `TABLE_DEPENDENCIES`,
stated independently of the loop that computes it (used to express the
claims about `resolve_dependencies`). -/
inductive InClosure (R : Finset String) : String → Prop
  | base {t : String} : t ∈ R → InClosure R t
  | step {t d : String} : InClosure R t → d ∈ TABLE_DEPENDENCIES t → InClosure R d

/-! ## Table-spec parser (`parse_table_spec`, lines 616-649)

String primitives (`strip`, `lower`, `split`, `int`) are modelled directly on
the underlying character lists, following Python's semantics. -/

/-- The whitespace characters recognised by Python's `str.strip`. -/
def isPySpace (c : Char) : Bool :=
  c = ' ' || c = '\t' || c = '\n' || c = '\r' || c = '\x0b' || c = '\x0c'

/-- `str.strip()` on a character list. -/
def stripChars (cs : List Char) : List Char :=
  ((cs.dropWhile isPySpace).reverse.dropWhile isPySpace).reverse

/-- Python `str.strip()`. -/
def pyStrip (s : String) : String := ⟨stripChars s.data⟩

/-- Python `str.lower()` (ASCII case folding, which covers this program's
inputs). -/
def pyLower (s : String) : String := ⟨s.data.map Char.toLower⟩

/-- Python `str.upper()` (ASCII). -/
def pyUpper (s : String) : String := ⟨s.data.map Char.toUpper⟩

/-- Python `c in str` for a single character. -/
def pyContains (sep : Char) (s : String) : Bool := s.data.any (fun c => c = sep)

/-- Python `str.split(sep)`: split at every separator occurrence; the result
is never empty and `"".split(sep) == ['']`. -/
def splitChars (sep : Char) : List Char → List (List Char)
  | [] => [[]]
  | c :: cs =>
    let r := splitChars sep cs
    if c = sep then [] :: r else (c :: r.headI) :: r.tail

/-- `str.split(sep)` returning strings. -/
def pySplit (sep : Char) (s : String) : List String :=
  (splitChars sep s.data).map (fun cs => ⟨cs⟩)

/-- Python `str.split(sep, 1)` decomposed as (part before the first
separator, part after it).  When `sep` is absent the second component is
empty; the source only destructures the split under a containment check. -/
def splitFirstChars (sep : Char) : List Char → List Char × List Char
  | [] => ([], [])
  | c :: cs =>
    if c = sep then ([], cs)
    else
      let p := splitFirstChars sep cs
      (c :: p.1, p.2)

def pySplitFirst (sep : Char) (s : String) : String × String :=
  let p := splitFirstChars sep s.data
  (⟨p.1⟩, ⟨p.2⟩)

/-- The numeric value of a non-empty all-digit character list (`none`
otherwise). -/
def digitsVal (cs : List Char) : Option Nat :=
  if cs ≠ [] ∧ cs.all Char.isDigit then
    some (cs.foldl (fun n c => 10 * n + (c.toNat - 48)) 0)
  else none

/-- Python `int(s)`: strip whitespace, then an optional sign followed by
decimal digits.  (Underscore digit grouping and non-ASCII digits are not
modelled; no claim involves them.)  `none` is Python's `ValueError`. -/
def pyInt (s : String) : Option Int :=
  match stripChars s.data with
  | '+' :: rest => (digitsVal rest).map (fun n => (n : Int))
  | '-' :: rest => (digitsVal rest).map (fun n => -(n : Int))
  | cs => (digitsVal cs).map (fun n => (n : Int))

/-- Fatal outcomes of `parse_table_spec`: an unknown table name (the
`sys.exit(1)` branch) or a count `int()` rejects (an uncaught
`ValueError`). -/
inductive ParseErr
  | unknownTable (table : String)
  | valueError (token : String)
deriving DecidableEq, Repr

/-- Python dict assignment `result[table] = count` on an insertion-ordered
association list: overwrite in place if the key exists, else append. -/
def dictAssign (m : List (String × Int)) (k : String) (v : Int) : List (String × Int) :=
  if m.any (fun p => p.1 = k) then
    m.map (fun p => if p.1 = k then (k, v) else p)
  else m ++ [(k, v)]

/-- The per-token table/count computation inside the parser loop: a
`tablename:count` token takes its count verbatim from `int`, a bare
`tablename` takes `default_count` when that is provided and non-zero (Python
truthiness) and the built-in default otherwise. -/
def tokenTableCount (default_count : Option Int) (tok : String) :
    Except ParseErr (String × Int) :=
  if pyContains ':' tok then
    let p := pySplitFirst ':' tok
    match pyInt (pyStrip p.2) with
    | none => .error (.valueError tok)
    | some c => .ok (pyStrip p.1, c)
  else
    let table := pyStrip tok
    let c :=
      match default_count with
      | some d => if d = 0 then defaultCountOf table else d
      | none => defaultCountOf table
    .ok (table, c)

/-- The parser's token loop: compute each token's table and count, abort on
an unknown table name (the source prints the offending name and exits),
otherwise assign into the result dict. -/
def goTokens (default_count : Option Int) :
    List String → List (String × Int) → Except ParseErr (List (String × Int))
  | [], acc => .ok acc
  | tok :: rest, acc =>
    (tokenTableCount default_count tok).bind fun tc =>
      if tc.1 ∈ ALL_TABLES then goTokens default_count rest (dictAssign acc tc.1 tc.2)
      else .error (.unknownTable tc.1)

/-- The parser's token list: `ALL_TABLES` when the whole argument lowercases
to `"all"`, otherwise the comma-split argument with each token stripped. -/
def tokensListOf (tables_arg : String) : List String :=
  if pyLower tables_arg = "all" then ALL_TABLES
  else (pySplit ',' tables_arg).map pyStrip

/-- `parse_table_spec(tables_arg, default_count)`. -/
def parse_table_spec (tables_arg : String) (default_count : Option Int) :
    Except ParseErr (List (String × Int)) :=
  goTokens default_count (tokensListOf tables_arg) []

/-- A token the parser accepts: its table/count computation succeeds and the
table lies in the fixed enumeration. -/
def TokenAccepted (default_count : Option Int) (tok : String) : Prop :=
  ∃ tc, tokenTableCount default_count tok = .ok tc ∧ tc.1 ∈ ALL_TABLES

/-- Whether a parser outcome is the unknown-table failure. -/
def isUnknownTableErr (r : Except ParseErr (List (String × Int))) : Bool :=
  match r with
  | .error (.unknownTable _) => true
  | _ => false

/-- A whitespace-only padding string. -/
def allSpace (s : String) : Bool := s.data.all isPySpace

/-- Surround a token — and, for a `tablename:count` token, both sides of its
first `:` separator — with extra strings (intended: whitespace). -/
def padToken (w1 w2 w3 w4 : String) (tok : String) : String :=
  if pyContains ':' tok then
    let p := pySplitFirst ':' tok
    w1 ++ p.1 ++ w2 ++ ":" ++ w3 ++ p.2 ++ w4
  else w1 ++ tok ++ w2

/-- Re-join tokens with commas (the inverse of `str.split(',')`), used to
state whitespace-insensitivity of the parser. -/
def joinTokens (toks : List String) : String :=
  ⟨List.intercalate [','] (toks.map String.data)⟩

/-! ## Generators (lines 155-506)

Each generator models the columns the claims constrain (foreign keys and the
uniqueness-checked attributes); faker-filled free-text columns are omitted. -/

/-- `random.choice(l)` driven by an explicit random index: some element of
`l`, and `none` exactly when `l` is empty (Python raises `IndexError`). -/
def pyChoice {α : Type} (l : List α) (r : Nat) : Option α :=
  l.get? (r % l.length)

/-- `generate_companies` (lines 155-185): inserts `count` rows and returns
the database-assigned ids, modelled by an id stream. -/
def generate_companies (ids : Nat → Nat) (count : Nat) : List Nat :=
  (List.range count).map ids

/-- The faker draws consumed by one contact: the company-pool index, the name
parts, and the domain produced by each `fake.domain_name()` call (the email
retry loop draws a fresh domain on every attempt). -/
structure ContactRand where
  companyR : Nat
  firstName : String
  lastName : String
  domains : Nat → String

/-- The modelled columns of a contact row. -/
structure Contact where
  id : Nat
  company_id : Nat
  email : String
deriving DecidableEq, Repr

/-- The email candidate at retry counter `k` (counter `0` is the base email,
which carries no numeric suffix). -/
def emailAttempt (r : ContactRand) (k : Nat) : String :=
  if k = 0 then
    pyLower r.firstName ++ "." ++ pyLower r.lastName ++ "@" ++ r.domains 0
  else
    pyLower r.firstName ++ "." ++ pyLower r.lastName ++ toString k ++ "@" ++ r.domains k

/-- The `while email in used_emails` retry loop; `none` encodes the source
looping forever (the code has no attempt bound). -/
def emailLoop (r : ContactRand) (used : List String) : Nat → Nat → Option String
  | 0, _ => none
  | fuel + 1, k =>
    let e := emailAttempt r k
    if e ∈ used then emailLoop r used fuel (k + 1) else some e

/-- The `for i in range(count)` loop of `generate_contacts`, threading the
`used_emails` set. -/
def genContactsAux (company_ids : List Nat) (ids : Nat → Nat) (rnd : Nat → ContactRand)
    (emailFuel : Nat) : Nat → Nat → List String → Option (List Contact)
  | 0, _, _ => some []
  | n + 1, i, used => do
    let cid ← pyChoice company_ids (rnd i).companyR
    let e ← emailLoop (rnd i) used emailFuel 0
    let rest ← genContactsAux company_ids ids rnd emailFuel n (i + 1) (e :: used)
    pure (({ id := ids i, company_id := cid, email := e } : Contact) :: rest)

/-- `generate_contacts` (lines 188-236): the caller reads `contact_ids` and
`contact_company_map` off the returned rows. -/
def generate_contacts (company_ids : List Nat) (ids : Nat → Nat) (rnd : Nat → ContactRand)
    (emailFuel count : Nat) : Option (List Contact) :=
  genContactsAux company_ids ids rnd emailFuel count 0 []

/-- The random draws consumed by one product: the chosen category, the price
draws, and the stream of `random.randint(1000, 9999)` values consumed by the
SKU retry loop. -/
structure ProductRand where
  category : String
  price : Nat
  skuR : Nat → Nat

/-- The modelled columns of a product row. -/
structure Product where
  id : Nat
  price : Nat
  sku : String
deriving DecidableEq, Repr

/-- The SKU candidate built from `category[:3].upper()` and the `k`-th
randint draw. -/
def skuAttempt (r : ProductRand) (k : Nat) : String :=
  pyUpper ⟨r.category.data.take 3⟩ ++ "-" ++ toString (r.skuR k)

/-- The `while sku in used_skus` retry loop; `none` encodes the unbounded
source loop never finding a free SKU. -/
def skuLoop (r : ProductRand) (used : List String) : Nat → Nat → Option String
  | 0, _ => none
  | fuel + 1, k =>
    let s := skuAttempt r k
    if s ∈ used then skuLoop r used fuel (k + 1) else some s

/-- The `for i in range(count)` loop of `generate_products`, threading the
`used_skus` set. -/
def genProductsAux (ids : Nat → Nat) (rnd : Nat → ProductRand) (skuFuel : Nat) :
    Nat → Nat → List String → Option (List Product)
  | 0, _, _ => some []
  | n + 1, i, used => do
    let s ← skuLoop (rnd i) used skuFuel 0
    let rest ← genProductsAux ids rnd skuFuel n (i + 1) (s :: used)
    pure (({ id := ids i, price := (rnd i).price, sku := s } : Product) :: rest)

/-- `generate_products` (lines 239-281): the caller reads `product_data`
(id ↦ price) off the returned rows. -/
def generate_products (ids : Nat → Nat) (rnd : Nat → ProductRand) (skuFuel count : Nat) :
    Option (List Product) :=
  genProductsAux ids rnd skuFuel count 0 []

/-- The modelled columns of a deal row. -/
structure Deal where
  id : Nat
  company_id : Nat
  contact_id : Option Nat
deriving DecidableEq, Repr

/-- `[cid for cid, comp_id in contact_company_map.items() if comp_id == company_id]`. -/
def companyContacts (cmap : List (Nat × Nat)) (company_id : Nat) : List Nat :=
  (cmap.filter (fun p => decide (p.2 = company_id))).map Prod.fst

/-- One deal row: choose a company, restrict the contact map to it, and
choose a contact from the restriction when it is non-empty. -/
def genDealRow (company_ids : List Nat) (cmap : List (Nat × Nat)) (did r1 r2 : Nat) :
    Option Deal := do
  let cid ← pyChoice company_ids r1
  let cc := companyContacts cmap cid
  pure { id := did, company_id := cid,
         contact_id := if cc.isEmpty then none else pyChoice cc r2 }

/-- `generate_deals` (lines 284-329).  As in the source, the `contact_ids`
pool is accepted but never read: contacts are drawn from the keys of
`contact_company_map`. -/
def generate_deals (company_ids contact_ids : List Nat) (cmap : List (Nat × Nat))
    (ids : Nat → Nat) (rnd : Nat → Nat × Nat) (count : Nat) : Option (List Deal) :=
  (List.range count).mapM (fun i => genDealRow company_ids cmap (ids i) (rnd i).1 (rnd i).2)

/-- The modelled columns of a deal-product row. -/
structure DealProduct where
  deal_id : Nat
  product_id : Nat
deriving DecidableEq, Repr

/-- The `while len(deal_products) < count` loop of `generate_deal_products`:
each iteration draws a (deal, product) pair and either skips it (`continue`,
when the pair is already used) or appends a row.  `none` encodes the
unbounded source loop failing to reach `count` distinct pairs. -/
def genDealProductsAux (deal_ids product_ids : List Nat) (rnd : Nat → Nat × Nat)
    (count : Nat) : Nat → Nat → List (Nat × Nat) → List DealProduct → Option (List DealProduct)
  | 0, _, _, acc => if count ≤ acc.length then some acc.reverse else none
  | fuel + 1, i, used, acc =>
    if count ≤ acc.length then some acc.reverse
    else do
      let did ← pyChoice deal_ids (rnd i).1
      let pid ← pyChoice product_ids (rnd i).2
      if (did, pid) ∈ used then
        genDealProductsAux deal_ids product_ids rnd count fuel (i + 1) used acc
      else
        genDealProductsAux deal_ids product_ids rnd count fuel (i + 1)
          ((did, pid) :: used) ({ deal_id := did, product_id := pid } :: acc)

/-- `generate_deal_products` (lines 332-366); the product pool is
`list(product_data.keys())`. -/
def generate_deal_products (deal_ids : List Nat) (product_data : List (Nat × Nat))
    (rnd : Nat → Nat × Nat) (fuel count : Nat) : Option (List DealProduct) :=
  genDealProductsAux deal_ids (product_data.map Prod.fst) rnd count fuel 0 [] []

/-- `generate_activities` (lines 369-402): each row references a randomly
chosen contact; only that reference is modelled. -/
def generate_activities (contact_ids : List Nat) (rnd : Nat → Nat) (count : Nat) :
    Option (List Nat) :=
  (List.range count).mapM (fun i => pyChoice contact_ids (rnd i))

/-- `generate_notes` (lines 405-453): each row references a randomly chosen
contact. -/
def generate_notes (contact_ids : List Nat) (rnd : Nat → Nat) (count : Nat) :
    Option (List Nat) :=
  (List.range count).mapM (fun i => pyChoice contact_ids (rnd i))

/-- `generate_tasks` (lines 456-506): each row references a randomly chosen
deal. -/
def generate_tasks (deal_ids : List Nat) (rnd : Nat → Nat) (count : Nat) :
    Option (List Nat) :=
  (List.range count).mapM (fun i => pyChoice deal_ids (rnd i))

/-! ## Execution driver (`main`, lines 707-864) -/

/-- The persisted store as visible through `fetch_existing_ids`,
`fetch_contact_company_map` and `fetch_product_prices`. -/
structure Store where
  ids : String → List Nat
  contactCompany : List (Nat × Nat)
  productPrices : List (Nat × Nat)

/-- The driver's in-memory identifier pools. -/
structure DriverState where
  company_ids : List Nat
  contact_ids : List Nat
  contact_company_map : List (Nat × Nat)
  product_data : List (Nat × Nat)
  deal_ids : List Nat
deriving DecidableEq, Repr

/-- The pools at the top of `main`'s generation loop: all empty. -/
def DriverState.initial : DriverState := ⟨[], [], [], [], []⟩

/-- All random/faker/database-id streams one run consumes, plus fuel for each
unbounded retry loop. -/
structure RunRand where
  companyIds : Nat → Nat
  contactIds : Nat → Nat
  contactRnd : Nat → ContactRand
  emailFuel : Nat
  productIds : Nat → Nat
  productRnd : Nat → ProductRand
  skuFuel : Nat
  dealIds : Nat → Nat
  dealRnd : Nat → Nat × Nat
  dpRnd : Nat → Nat × Nat
  dpFuel : Nat
  activityRnd : Nat → Nat
  noteRnd : Nat → Nat
  taskRnd : Nat → Nat

/-- Run-fatal driver outcomes.  `missingPrerequisite t` is the `sys.exit(1)`
taken when the pool for prerequisite `t` is empty both in memory and in the
store; `diverges` stands for a generator retry loop that never exits. -/
inductive DriverErr
  | missingPrerequisite (table : String)
  | diverges
deriving DecidableEq, Repr

/-- One iteration of the driver's `for table in tables_to_generate` loop (the
`if/elif` chain in `main`).  A count at or below zero generates zero records,
matching `range(count)`. -/
def driverStep (store : Store) (rr : RunRand) (st : DriverState) (table : String)
    (count : Int) : Except DriverErr DriverState :=
  let n := count.toNat
  if table = "companies" then
    .ok { st with company_ids := generate_companies rr.companyIds n }
  else if table = "contacts" then
    let cids := if st.company_ids = [] then store.ids "companies" else st.company_ids
    if cids = [] then .error (.missingPrerequisite "companies")
    else
      match generate_contacts cids rr.contactIds rr.contactRnd rr.emailFuel n with
      | none => .error .diverges
      | some cs =>
        .ok { st with company_ids := cids,
                      contact_ids := cs.map Contact.id,
                      contact_company_map := cs.map (fun c => (c.id, c.company_id)) }
  else if table = "products" then
    match generate_products rr.productIds rr.productRnd rr.skuFuel n with
    | none => .error .diverges
    | some ps => .ok { st with product_data := ps.map (fun p => (p.id, p.price)) }
  else if table = "deals" then
    let cids := if st.company_ids = [] then store.ids "companies" else st.company_ids
    if cids = [] then .error (.missingPrerequisite "companies")
    else
      let ctids := if st.contact_ids = [] then store.ids "contacts" else st.contact_ids
      let cmap :=
        if st.contact_ids = [] then store.contactCompany else st.contact_company_map
      if ctids = [] then .error (.missingPrerequisite "contacts")
      else
        match generate_deals cids ctids cmap rr.dealIds rr.dealRnd n with
        | none => .error .diverges
        | some ds =>
          .ok { st with company_ids := cids, contact_ids := ctids,
                        contact_company_map := cmap, deal_ids := ds.map Deal.id }
  else if table = "deal_products" then
    let dids := if st.deal_ids = [] then store.ids "deals" else st.deal_ids
    if dids = [] then .error (.missingPrerequisite "deals")
    else
      let pdata := if st.product_data = [] then store.productPrices else st.product_data
      if pdata = [] then .error (.missingPrerequisite "products")
      else
        match generate_deal_products dids pdata rr.dpRnd rr.dpFuel n with
        | none => .error .diverges
        | some _ => .ok { st with deal_ids := dids, product_data := pdata }
  else if table = "activities" then
    let ctids := if st.contact_ids = [] then store.ids "contacts" else st.contact_ids
    if ctids = [] then .error (.missingPrerequisite "contacts")
    else
      match generate_activities ctids rr.activityRnd n with
      | none => .error .diverges
      | some _ => .ok { st with contact_ids := ctids }
  else if table = "notes" then
    let ctids := if st.contact_ids = [] then store.ids "contacts" else st.contact_ids
    if ctids = [] then .error (.missingPrerequisite "contacts")
    else
      match generate_notes ctids rr.noteRnd n with
      | none => .error .diverges
      | some _ => .ok { st with contact_ids := ctids }
  else if table = "tasks" then
    let dids := if st.deal_ids = [] then store.ids "deals" else st.deal_ids
    if dids = [] then .error (.missingPrerequisite "deals")
    else
      match generate_tasks dids rr.taskRnd n with
      | none => .error .diverges
      | some _ => .ok { st with deal_ids := dids }
  else .ok st

/-- The driver's loop over the resolved plan. -/
def runTables (store : Store) (rr : RunRand) (counts : String → Int) :
    List String → DriverState → Except DriverErr DriverState
  | [], st => .ok st
  | t :: rest, st =>
    match driverStep store rr st t (counts t) with
    | .error e => .error e
    | .ok st' => runTables store rr counts rest st'

/-- A finished run: the single `conn.commit()` at the very end of `main`
happens only after every table in the plan processed without a fatal
error, so a committed outcome exists exactly for error-free runs. -/
inductive RunOutcome
  | committed (final : DriverState)

/-- The generation phase of `main` followed by the single final commit. -/
def driveAndCommit (store : Store) (rr : RunRand) (counts : String → Int)
    (plan : List String) : Except DriverErr RunOutcome :=
  (runTables store rr counts plan DriverState.initial).map RunOutcome.committed

/-- The prerequisite pools each driver branch consults, in the order the
branch checks them. -/
def REQUIRED_POOLS (t : String) : List String :=
  if t = "contacts" then ["companies"]
  else if t = "deals" then ["companies", "contacts"]
  else if t = "deal_products" then ["deals", "products"]
  else if t = "activities" then ["contacts"]
  else if t = "notes" then ["contacts"]
  else if t = "tasks" then ["deals"]
  else []

/-- The in-memory pool the driver consults for a prerequisite table. -/
def poolOf (st : DriverState) (t : String) : List Nat :=
  if t = "companies" then st.company_ids
  else if t = "contacts" then st.contact_ids
  else if t = "deals" then st.deal_ids
  else if t = "products" then st.product_data.map Prod.fst
  else []

/-- The persisted rows the fallback fetch sees for a prerequisite table
(`fetch_existing_ids`; the products prerequisite goes through
`fetch_product_prices`). -/
def storePool (store : Store) (t : String) : List Nat :=
  if t = "products" then store.productPrices.map Prod.fst
  else store.ids t

/-- A store with no rows in any table. -/
def emptyStore : Store := ⟨fun _ => [], [], []⟩

/-- A concrete stream bundle used to instantiate driver runs. -/
def sampleRand : RunRand where
  companyIds := fun i => i + 1
  contactIds := fun i => i + 101
  contactRnd := fun i =>
    { companyR := i, firstName := "Ada", lastName := "Lovelace",
      domains := fun _ => "example.com" }
  emailFuel := 8
  productIds := fun i => i + 201
  productRnd := fun i =>
    { category := "Software", price := 100, skuR := fun k => 1000 + i + k }
  skuFuel := 8
  dealIds := fun i => i + 301
  dealRnd := fun i => (i, i)
  dpRnd := fun i => (i, i)
  dpFuel := 8
  activityRnd := fun i => i
  noteRnd := fun i => i
  taskRnd := fun i => i

/-! ## Resolver lemmas -/

lemma dep_mem_ALL_TABLES {t d : String} (h : d ∈ TABLE_DEPENDENCIES t) :
    d ∈ ALL_TABLES := by
  unfold TABLE_DEPENDENCIES at h
  split_ifs at h <;> simp_all [ALL_TABLES] <;> tauto

lemma nodup_ALL_TABLES : ALL_TABLES.Nodup := by decide

lemma no_self_dep : ∀ t ∈ ALL_TABLES, t ∉ TABLE_DEPENDENCIES t := by decide

lemma deps_not_later :
    ALL_TABLES.Pairwise (fun a b => b ∉ TABLE_DEPENDENCIES a) := by decide

/-- In the fixed enumeration, every dependency of a table appears strictly
before the table. -/
lemma deps_in_prefix {l₁ l₂ : List String} {t d : String}
    (hdec : ALL_TABLES = l₁ ++ t :: l₂) (hd : d ∈ TABLE_DEPENDENCIES t) :
    d ∈ l₁ := by
  have hdall : d ∈ ALL_TABLES := dep_mem_ALL_TABLES hd
  have htall : t ∈ ALL_TABLES := by
    rw [hdec]; exact List.mem_append_right _ (List.mem_cons_self _ _)
  rw [hdec] at hdall
  rcases List.mem_append.1 hdall with h1 | h2
  · exact h1
  · rcases List.mem_cons.1 h2 with rfl | h3
    · exact absurd hd (no_self_dep _ htall)
    · have hp := deps_not_later
      rw [hdec] at hp
      have := (List.pairwise_append.1 hp).2.1
      exact absurd hd ((List.pairwise_cons.1 this).1 _ h3)

lemma subset_closureStep (s : Finset String) : s ⊆ closureStep s :=
  Finset.subset_union_left

lemma mem_closureStep_cases {s : Finset String} {x : String} (h : x ∈ closureStep s) :
    x ∈ s ∨ ∃ t ∈ s, x ∈ TABLE_DEPENDENCIES t := by
  rcases Finset.mem_union.1 h with h1 | h2
  · exact Or.inl h1
  · rcases Finset.mem_biUnion.1 h2 with ⟨t, ht, hx⟩
    exact Or.inr ⟨t, ht, List.mem_toFinset.1 hx⟩

lemma closureStep_subset_union (s : Finset String) :
    closureStep s ⊆ s ∪ ALL_TABLES.toFinset := by
  intro x hx
  rcases mem_closureStep_cases hx with h1 | ⟨t, _, hd⟩
  · exact Finset.mem_union_left _ h1
  · exact Finset.mem_union_right _ (List.mem_toFinset.2 (dep_mem_ALL_TABLES hd))

lemma subset_closureFrom : ∀ (n : Nat) (s : Finset String), s ⊆ closureFrom n s := by
  intro n
  induction n with
  | zero => intro s; exact Finset.Subset.refl s
  | succ m ih =>
    intro s
    by_cases h : closureStep s = s
    · simp [closureFrom, h]
    · simp only [closureFrom, if_neg h]
      exact (subset_closureStep s).trans (ih (closureStep s))

/-- Enough fuel (more than the number of universe tables still missing)
always reaches the fixed point of the closure pass, so the fuelled loop is a
faithful rendering of the source's unbounded `while added` loop. -/
lemma closureFrom_fixed :
    ∀ (n : Nat) (s : Finset String), (ALL_TABLES.toFinset \ s).card < n →
      closureStep (closureFrom n s) = closureFrom n s := by
  intro n
  induction n with
  | zero => intro s h; omega
  | succ m ih =>
    intro s h
    by_cases hfix : closureStep s = s
    · rw [closureFrom, if_pos hfix]
      exact hfix
    · simp only [closureFrom, if_neg hfix]
      apply ih
      have hsub : s ⊆ closureStep s := subset_closureStep s
      have hx : ∃ x, x ∈ closureStep s ∧ x ∉ s := by
        by_contra hno
        push_neg at hno
        exact hfix (Finset.Subset.antisymm (fun x hx => hno x hx) hsub)
      rcases hx with ⟨x, hxc, hxs⟩
      have hxu : x ∈ ALL_TABLES.toFinset := by
        rcases Finset.mem_union.1 (closureStep_subset_union s hxc) with h1 | h2
        · exact absurd h1 hxs
        · exact h2
      have hss : ALL_TABLES.toFinset \ closureStep s ⊂ ALL_TABLES.toFinset \ s := by
        constructor
        · exact Finset.sdiff_subset_sdiff (Finset.Subset.refl _) hsub
        · intro hle
          have := hle (Finset.mem_sdiff.2 ⟨hxu, hxs⟩)
          exact (Finset.mem_sdiff.1 this).2 hxc
      have := Finset.card_lt_card hss
      omega

lemma card_ALL_TABLES_toFinset : (ALL_TABLES.toFinset).card = 8 := by decide

lemma depClosure_fixed (ts : List String) :
    closureStep (depClosure ts) = depClosure ts := by
  apply closureFrom_fixed
  calc (ALL_TABLES.toFinset \ ts.toFinset).card
      ≤ (ALL_TABLES.toFinset).card := Finset.card_le_card (Finset.sdiff_subset)
    _ < 9 := by rw [card_ALL_TABLES_toFinset]; omega

lemma subset_depClosure (ts : List String) : ts.toFinset ⊆ depClosure ts :=
  subset_closureFrom 9 ts.toFinset

lemma depClosure_closed {ts : List String} {t d : String}
    (ht : t ∈ depClosure ts) (hd : d ∈ TABLE_DEPENDENCIES t) : d ∈ depClosure ts := by
  have : d ∈ closureStep (depClosure ts) :=
    Finset.mem_union_right _
      (Finset.mem_biUnion.2 ⟨t, ht, List.mem_toFinset.2 hd⟩)
  rwa [depClosure_fixed ts] at this

/-- Closure-membership induction: everything in the computed closure is
reachable from the base set through dependency steps. -/
lemma closureFrom_induct (P : String → Prop)
    (hstep : ∀ t d, P t → d ∈ TABLE_DEPENDENCIES t → P d) :
    ∀ (n : Nat) (s : Finset String), (∀ y ∈ s, P y) →
      ∀ x ∈ closureFrom n s, P x := by
  intro n
  induction n with
  | zero => intro s hs x hx; exact hs x hx
  | succ m ih =>
    intro s hs x hx
    by_cases hfix : closureStep s = s
    · rw [closureFrom, if_pos hfix] at hx
      exact hs x hx
    · rw [closureFrom, if_neg hfix] at hx
      refine ih (closureStep s) ?_ x hx
      intro y hy
      rcases mem_closureStep_cases hy with h1 | ⟨t, ht, hd⟩
      · exact hs y h1
      · exact hstep t y (hs t ht) hd

/-- The computed closure is exactly the transitive closure of the requested
set under the dependency graph. -/
lemma mem_depClosure_iff {ts : List String} {t : String} :
    t ∈ depClosure ts ↔ InClosure ts.toFinset t := by
  constructor
  · intro h
    exact closureFrom_induct (InClosure ts.toFinset)
      (fun a d ha hd => InClosure.step ha hd) 9 ts.toFinset
      (fun y hy => InClosure.base hy) t h
  · intro h
    induction h with
    | base hy => exact subset_depClosure ts hy
    | step _ hd ih => exact depClosure_closed ih hd

lemma depClosure_subset_univ {ts : List String} (h : ∀ t ∈ ts, t ∈ ALL_TABLES) :
    depClosure ts ⊆ ALL_TABLES.toFinset := by
  intro x hx
  refine closureFrom_induct (fun y => y ∈ ALL_TABLES.toFinset)
    (fun a d _ hd => List.mem_toFinset.2 (dep_mem_ALL_TABLES hd)) 9 ts.toFinset
    ?_ x hx
  intro y hy
  exact List.mem_toFinset.2 (h y (List.mem_toFinset.1 hy))

lemma orderLoop_empty (fuel : Nat) (ordered : List String) (tg : Finset String) :
    orderLoop fuel ordered ∅ tg = some ordered := by
  cases fuel <;> simp [orderLoop]

lemma find?_first {α : Type} {p : α → Bool} :
    ∀ (l₁ : List α) (t : α) (l₂ : List α), (∀ u ∈ l₁, p u = false) → p t = true →
      (l₁ ++ t :: l₂).find? p = some t := by
  intro l₁
  induction l₁ with
  | nil => intro t l₂ _ ht; simp [List.find?_cons, ht]
  | cons a l ih =>
    intro t l₂ hfalse ht
    have ha : p a = false := hfalse a (List.mem_cons_self _ _)
    simp only [List.cons_append, List.find?_cons, ha]
    exact ih t l₂ (fun u hu => hfalse u (List.mem_cons_of_mem _ hu)) ht

lemma orderLoop_succ_found {fuel : Nat} {ord : List String} {rem tg : Finset String}
    {t : String} (hne : rem ≠ ∅) (hfind : findPlaceable ord rem tg = some t) :
    orderLoop (fuel + 1) ord rem tg = orderLoop fuel (ord ++ [t]) (rem.erase t) tg := by
  rw [orderLoop, if_neg hne, hfind]

/-- The ordering loop, run on a dependency-closed subset of the universe,
peels off exactly the enumeration-order restriction of the closure. -/
lemma orderLoop_eq_filter (C : Finset String)
    (hclosed : ∀ t ∈ C, ∀ d ∈ TABLE_DEPENDENCIES t, d ∈ C) :
    ∀ (l₂ l₁ : List String) (fuel : Nat),
      ALL_TABLES = l₁ ++ l₂ →
      (l₂.filter (fun t => decide (t ∈ C))).length ≤ fuel →
      orderLoop fuel (l₁.filter (fun t => decide (t ∈ C))) (C ∩ l₂.toFinset) C
        = some (ALL_TABLES.filter (fun t => decide (t ∈ C))) := by
  intro l₂
  induction l₂ with
  | nil =>
    intro l₁ fuel hdec _
    have h₀ : C ∩ ([] : List String).toFinset = ∅ := by simp
    rw [h₀, orderLoop_empty, hdec, List.append_nil]
  | cons t l₂' ih =>
    intro l₁ fuel hdec hfuel
    have hnodup : (l₁ ++ t :: l₂').Nodup := by rw [← hdec]; exact nodup_ALL_TABLES
    have htl₂' : t ∉ l₂' := by
      have := (List.nodup_append.1 hnodup).2.1
      exact (List.nodup_cons.1 this).1
    by_cases ht : t ∈ C
    · -- `t` is the next table placed.
      have hfil : (t :: l₂').filter (fun x => decide (x ∈ C)) =
          t :: l₂'.filter (fun x => decide (x ∈ C)) := by
        simp [List.filter_cons, ht]
      rw [hfil] at hfuel
      obtain ⟨f, rfl⟩ : ∃ f, fuel = f + 1 := by
        cases fuel with
        | zero => simp at hfuel
        | succ f => exact ⟨f, rfl⟩
      have htrem : t ∈ C ∩ (t :: l₂').toFinset := by
        refine Finset.mem_inter.2 ⟨ht, ?_⟩
        simp
      have hne : C ∩ (t :: l₂').toFinset ≠ ∅ := by
        intro h; rw [h] at htrem; exact absurd htrem (Finset.not_mem_empty t)
      have hplace : placeable (l₁.filter (fun y => decide (y ∈ C))) C t = true := by
        unfold placeable
        rw [List.all_eq_true]
        intro d hd
        by_cases hdC : d ∈ C
        · have : d ∈ l₁ := deps_in_prefix hdec hd
          have : d ∈ l₁.filter (fun y => decide (y ∈ C)) :=
            List.mem_filter.2 ⟨this, by simp [hdC]⟩
          simp [this]
        · simp [hdC]
      have hfind : findPlaceable (l₁.filter (fun x => decide (x ∈ C)))
          (C ∩ (t :: l₂').toFinset) C = some t := by
        unfold findPlaceable
        rw [hdec]
        apply find?_first
        · intro u hu
          have hun : u ∉ t :: l₂' := by
            intro hmem
            exact (List.disjoint_of_nodup_append hnodup) hu hmem
          have hnm : ¬ u ∈ C ∩ (t :: l₂').toFinset := by
            intro hm
            exact hun (List.mem_toFinset.1 (Finset.mem_inter.1 hm).2)
          simp only [decide_eq_false hnm, Bool.false_and]
        · simp only [decide_eq_true htrem, hplace, Bool.and_self]
      rw [orderLoop_succ_found hne hfind]
      have herase : (C ∩ (t :: l₂').toFinset).erase t = C ∩ l₂'.toFinset := by
        ext x
        simp only [Finset.mem_erase, Finset.mem_inter, List.mem_toFinset,
          List.mem_cons]
        constructor
        · rintro ⟨hxt, hxC, (rfl | hx)⟩
          · exact absurd rfl hxt
          · exact ⟨hxC, hx⟩
        · rintro ⟨hxC, hx⟩
          exact ⟨fun h => htl₂' (h ▸ hx), hxC, Or.inr hx⟩
      have hord : l₁.filter (fun y => decide (y ∈ C)) ++ [t] =
          (l₁ ++ [t]).filter (fun y => decide (y ∈ C)) := by
        rw [List.filter_append]
        simp [List.filter_cons, ht]
      rw [herase, hord]
      exact ih (l₁ ++ [t]) f (by rw [hdec, List.append_assoc]; rfl)
        (by simpa using Nat.le_of_succ_le_succ hfuel)
    · -- `t` is outside the closure: skip it.
      have hrem : C ∩ (t :: l₂').toFinset = C ∩ l₂'.toFinset := by
        ext x
        simp only [Finset.mem_inter, List.mem_toFinset, List.mem_cons]
        constructor
        · rintro ⟨hxC, (rfl | hx)⟩
          · exact absurd hxC ht
          · exact ⟨hxC, hx⟩
        · rintro ⟨hxC, hx⟩
          exact ⟨hxC, Or.inr hx⟩
      have hord : l₁.filter (fun y => decide (y ∈ C)) =
          (l₁ ++ [t]).filter (fun y => decide (y ∈ C)) := by
        rw [List.filter_append]
        simp [List.filter_cons, ht]
      have hfuel' : (l₂'.filter (fun x => decide (x ∈ C))).length ≤ fuel := by
        have : (t :: l₂').filter (fun x => decide (x ∈ C)) =
            l₂'.filter (fun x => decide (x ∈ C)) := by
          simp [List.filter_cons, ht]
        rwa [this] at hfuel
      rw [hrem, hord]
      exact ih (l₁ ++ [t]) fuel (by rw [hdec, List.append_assoc]; rfl) hfuel'

/-- `resolve_dependencies` on a valid request equals the enumeration-order
restriction of the dependency closure. -/
lemma resolve_eq_filter {ts : List String} (h : ∀ t ∈ ts, t ∈ ALL_TABLES) :
    resolve_dependencies ts true =
      some (ALL_TABLES.filter (fun t => decide (t ∈ depClosure ts))) := by
  unfold resolve_dependencies
  rw [if_pos rfl]
  have hsub : depClosure ts ⊆ ALL_TABLES.toFinset := depClosure_subset_univ h
  have hinter : depClosure ts ∩ ALL_TABLES.toFinset = depClosure ts :=
    Finset.inter_eq_left.2 hsub
  have hfuel : ((ALL_TABLES.filter (fun t => decide (t ∈ depClosure ts))).length)
      ≤ (depClosure ts).card + 1 := by
    have hnd : (ALL_TABLES.filter (fun t => decide (t ∈ depClosure ts))).Nodup :=
      nodup_ALL_TABLES.filter _
    have hlen : (ALL_TABLES.filter (fun t => decide (t ∈ depClosure ts))).length =
        (ALL_TABLES.filter (fun t => decide (t ∈ depClosure ts))).toFinset.card :=
      (List.toFinset_card_of_nodup hnd).symm
    have hsub₂ : (ALL_TABLES.filter (fun t => decide (t ∈ depClosure ts))).toFinset
        ⊆ depClosure ts := by
      intro x hx
      have := List.mem_toFinset.1 hx
      have := List.mem_filter.1 this
      simpa using this.2
    calc (ALL_TABLES.filter (fun t => decide (t ∈ depClosure ts))).length
        = _ := hlen
      _ ≤ (depClosure ts).card := Finset.card_le_card hsub₂
      _ ≤ (depClosure ts).card + 1 := Nat.le_succ _
  have := orderLoop_eq_filter (depClosure ts)
    (fun t ht d hd => depClosure_closed ht hd) ALL_TABLES []
    ((depClosure ts).card + 1) rfl hfuel
  simpa [hinter] using this

/-- **C1**: for every requested subset of the eight fixed tables,
`resolve_dependencies(R, include_deps=True)` returns a sequence whose
underlying set equals the transitive closure of `R` under
`TABLE_DEPENDENCIES`, and every dependency of a listed table that is itself
in the sequence appears strictly earlier than the table. -/
theorem resolve_closure_and_topo_order (ts : List String)
    (hts : ∀ t ∈ ts, t ∈ ALL_TABLES) :
    ∃ l, resolve_dependencies ts true = some l ∧
      (∀ t, t ∈ l ↔ InClosure ts.toFinset t) ∧
      (∀ t ∈ l, ∀ d ∈ TABLE_DEPENDENCIES t, d ∈ l →
        List.indexOf d l < List.indexOf t l) := by
  refine ⟨ALL_TABLES.filter (fun t => decide (t ∈ depClosure ts)),
    resolve_eq_filter hts, ?_, ?_⟩
  · intro t
    rw [List.mem_filter]
    constructor
    · rintro ⟨-, h2⟩
      exact mem_depClosure_iff.1 (by simpa using h2)
    · intro h
      have hC := mem_depClosure_iff.2 h
      exact ⟨List.mem_toFinset.1 (depClosure_subset_univ hts hC), by simpa using hC⟩
  · intro t htl d hd hdl
    have hpair : (ALL_TABLES.filter (fun t => decide (t ∈ depClosure ts))).Pairwise
        (fun a b => b ∉ TABLE_DEPENDENCIES a) :=
      deps_not_later.sublist (List.filter_sublist _)
    have hget := List.pairwise_iff_get.1 hpair
    have hdi := List.indexOf_lt_length.2 hdl
    have hti := List.indexOf_lt_length.2 htl
    rcases Nat.lt_trichotomy
      (List.indexOf d (ALL_TABLES.filter (fun t => decide (t ∈ depClosure ts))))
      (List.indexOf t (ALL_TABLES.filter (fun t => decide (t ∈ depClosure ts)))) with
      h | h | h
    · exact h
    · exfalso
      have hdt : d = t := by
        have h1 := List.indexOf_get (a := d)
          (l := ALL_TABLES.filter (fun t => decide (t ∈ depClosure ts))) hdi
        have h2 := List.indexOf_get (a := t)
          (l := ALL_TABLES.filter (fun t => decide (t ∈ depClosure ts))) hti
        rw [← h1, ← h2]
        congr 1
        exact Fin.ext h
      have htA : t ∈ ALL_TABLES := (List.mem_filter.1 htl).1
      exact no_self_dep t htA (hdt ▸ hd)
    · exfalso
      have := hget ⟨_, hti⟩ ⟨_, hdi⟩ h
      rw [List.indexOf_get, List.indexOf_get] at this
      exact this hd

/-- Witness for C1 at the concrete request `["deals"]`. -/
theorem resolve_closure_and_topo_order_witness :
    (∀ t ∈ ["deals"], t ∈ ALL_TABLES) ∧
      ∃ l, resolve_dependencies ["deals"] true = some l ∧
        (∀ t, t ∈ l ↔ InClosure (["deals"] : List String).toFinset t) ∧
        (∀ t ∈ l, ∀ d ∈ TABLE_DEPENDENCIES t, d ∈ l →
          List.indexOf d l < List.indexOf t l) :=
  ⟨by decide, resolve_closure_and_topo_order ["deals"] (by decide)⟩

/-- **C2** (code bug): the resolver has no cycle guard at all.  On input
`["bogus"]` the ordering pass places zero tables while the remaining set is
non-empty, and the source loops forever instead of raising a `CycleError`:
in the fuelled model the loop returns `none` — the marker for
non-termination — for *every* fuel amount. -/
theorem resolve_no_cycle_error_diverges :
    resolve_dependencies ["bogus"] true = none ∧
      ∀ (fuel : Nat) (ord : List String),
        orderLoop fuel ord (depClosure ["bogus"]) (depClosure ["bogus"]) = none := by
  have hclo : depClosure ["bogus"] = {"bogus"} := by decide
  have hne : (depClosure ["bogus"]) ≠ ∅ := by rw [hclo]; decide
  have hfind : ∀ (ord : List String),
      findPlaceable ord (depClosure ["bogus"]) (depClosure ["bogus"]) = none := by
    intro ord
    unfold findPlaceable
    rw [List.find?_eq_none]
    intro t ht
    have htb : ¬ t ∈ depClosure ["bogus"] := by
      rw [hclo]
      fin_cases ht <;> decide
    simp [htb]
  have hloop : ∀ (fuel : Nat) (ord : List String),
      orderLoop fuel ord (depClosure ["bogus"]) (depClosure ["bogus"]) = none := by
    intro fuel ord
    cases fuel with
    | zero => simp [orderLoop, hne]
    | succ f => rw [orderLoop, if_neg hne, hfind]
  refine ⟨?_, hloop⟩
  unfold resolve_dependencies
  rw [if_pos rfl]
  exact hloop _ _

/-- **C10**: on every valid request, `resolve_dependencies` returns exactly
the fixed enumeration `ALL_TABLES` restricted to the dependency closure of
the request, in enumeration order; hence the plan has no duplicates, and
equal inputs give the identical ordered sequence. -/
theorem resolve_is_enumeration_filter (ts : List String)
    (hts : ∀ t ∈ ts, t ∈ ALL_TABLES) :
    resolve_dependencies ts true =
        some (ALL_TABLES.filter (fun t => decide (t ∈ depClosure ts))) ∧
      (ALL_TABLES.filter (fun t => decide (t ∈ depClosure ts))).Nodup ∧
      ∀ ts' : List String, ts' = ts →
        resolve_dependencies ts' true = resolve_dependencies ts true := by
  exact ⟨resolve_eq_filter hts, nodup_ALL_TABLES.filter _, fun ts' h => by rw [h]⟩

/-! ## Parser lemmas: string primitives -/

lemma dropWhile_append_all {p : Char → Bool} {w x : List Char}
    (hw : ∀ c ∈ w, p c = true) : (w ++ x).dropWhile p = x.dropWhile p := by
  induction w with
  | nil => rfl
  | cons c w ih =>
    have hc : p c = true := hw c (List.mem_cons_self _ _)
    simp only [List.cons_append, List.dropWhile_cons, hc, if_true]
    exact ih (fun d hd => hw d (List.mem_cons_of_mem _ hd))

lemma dropWhile_all {p : Char → Bool} {w : List Char} (hw : ∀ c ∈ w, p c = true) :
    w.dropWhile p = [] := by
  have := dropWhile_append_all (x := ([] : List Char)) hw
  simpa using this

lemma stripChars_append_left {w x : List Char} (hw : ∀ c ∈ w, isPySpace c = true) :
    stripChars (w ++ x) = stripChars x := by
  unfold stripChars
  rw [dropWhile_append_all hw]

lemma stripChars_append_right {x w : List Char} (hw : ∀ c ∈ w, isPySpace c = true) :
    stripChars (x ++ w) = stripChars x := by
  unfold stripChars
  rcases eq_or_ne (x.dropWhile isPySpace) [] with hx | hx
  · have hxall : ∀ c ∈ x, isPySpace c = true := by
      intro c hc
      have hxd : x = x.takeWhile isPySpace ++ x.dropWhile isPySpace :=
        (List.takeWhile_append_dropWhile _ _).symm
      rw [hx, List.append_nil] at hxd
      exact List.mem_takeWhile_imp (hxd ▸ hc)
    rw [dropWhile_append_all hxall, dropWhile_all hw, hx]
  · rw [List.dropWhile_append]
    have hne : (x.dropWhile isPySpace).isEmpty = false := by
      simpa [List.isEmpty_iff] using hx
    rw [hne]
    simp only [Bool.false_eq_true, if_false, List.reverse_append]
    rw [dropWhile_append_all (fun c hc => hw c (List.mem_reverse.1 hc))]

lemma stripChars_pad {w1 x w2 : List Char}
    (h1 : ∀ c ∈ w1, isPySpace c = true) (h2 : ∀ c ∈ w2, isPySpace c = true) :
    stripChars (w1 ++ x ++ w2) = stripChars x := by
  rw [stripChars_append_right h2, stripChars_append_left h1]

/-- Every character list is whitespace, then its strip, then whitespace. -/
lemma stripChars_decomp (cs : List Char) :
    ∃ wl wr, (∀ c ∈ wl, isPySpace c = true) ∧ (∀ c ∈ wr, isPySpace c = true) ∧
      cs = wl ++ (stripChars cs ++ wr) := by
  refine ⟨cs.takeWhile isPySpace,
    ((cs.dropWhile isPySpace).reverse.takeWhile isPySpace).reverse,
    fun c hc => List.mem_takeWhile_imp hc,
    fun c hc => List.mem_takeWhile_imp (List.mem_reverse.1 hc), ?_⟩
  conv_lhs => rw [← List.takeWhile_append_dropWhile isPySpace cs]
  congr 1
  conv_lhs => rw [← List.reverse_reverse (cs.dropWhile isPySpace),
    ← List.takeWhile_append_dropWhile isPySpace (cs.dropWhile isPySpace).reverse,
    List.reverse_append]
  rfl

lemma mem_stripChars_iff {c : Char} (hc : isPySpace c = false) (cs : List Char) :
    c ∈ stripChars cs ↔ c ∈ cs := by
  obtain ⟨wl, wr, h1, h2, hdec⟩ := stripChars_decomp cs
  constructor
  · intro h
    rw [hdec]
    exact List.mem_append_right _ (List.mem_append_left _ h)
  · intro h
    rw [hdec] at h
    rcases List.mem_append.1 h with h | h
    · rw [h1 c h] at hc; cases hc
    · rcases List.mem_append.1 h with h | h
      · exact h
      · rw [h2 c h] at hc; cases hc

lemma isPySpace_colon : isPySpace ':' = false := by decide

lemma isPySpace_comma : isPySpace ',' = false := by decide

lemma not_mem_space {c : Char} (hc : isPySpace c = false) {w : List Char}
    (hw : ∀ d ∈ w, isPySpace d = true) : c ∉ w := by
  intro h
  rw [hw c h] at hc
  cases hc

/-! splitFirst lemmas -/

lemma splitFirstChars_append_sep {sep : Char} :
    ∀ {xs : List Char} (ys : List Char), sep ∉ xs →
      splitFirstChars sep (xs ++ sep :: ys) = (xs, ys) := by
  intro xs
  induction xs with
  | nil => intro ys _; simp [splitFirstChars]
  | cons c xs ih =>
    intro ys h
    have hcs : ¬ c = sep := fun hc => h (hc ▸ List.mem_cons_self _ _)
    simp only [List.cons_append, splitFirstChars, if_neg hcs, List.append_eq,
      ih ys (fun hm => h (List.mem_cons_of_mem _ hm))]

lemma splitFirstChars_prepend {sep : Char} :
    ∀ {xs ys : List Char}, sep ∉ xs → sep ∈ ys →
      splitFirstChars sep (xs ++ ys) =
        (xs ++ (splitFirstChars sep ys).1, (splitFirstChars sep ys).2) := by
  intro xs
  induction xs with
  | nil => intro ys _ _; simp
  | cons c xs ih =>
    intro ys h hy
    have hcs : ¬ c = sep := fun hc => h (hc ▸ List.mem_cons_self _ _)
    simp only [List.cons_append, splitFirstChars, if_neg hcs, List.append_eq,
      ih (fun hm => h (List.mem_cons_of_mem _ hm)) hy, List.cons_append]

lemma splitFirstChars_append_of_mem {sep : Char} :
    ∀ {xs : List Char} (ys : List Char), sep ∈ xs →
      splitFirstChars sep (xs ++ ys) =
        ((splitFirstChars sep xs).1, (splitFirstChars sep xs).2 ++ ys) := by
  intro xs
  induction xs with
  | nil => intro ys h; cases h
  | cons c xs ih =>
    intro ys h
    by_cases hc : c = sep
    · subst hc
      simp [splitFirstChars]
    · have hx : sep ∈ xs := by
        rcases List.mem_cons.1 h with h | h
        · exact absurd h.symm hc
        · exact h
      simp only [List.cons_append, splitFirstChars, if_neg hc, List.append_eq, ih ys hx]

lemma splitFirstChars_decomp {sep : Char} :
    ∀ {cs : List Char}, sep ∈ cs →
      sep ∉ (splitFirstChars sep cs).1 ∧
        cs = (splitFirstChars sep cs).1 ++ sep :: (splitFirstChars sep cs).2 := by
  intro cs
  induction cs with
  | nil => intro h; cases h
  | cons c cs ih =>
    intro h
    by_cases hc : c = sep
    · subst hc
      simp [splitFirstChars]
    · have hx : sep ∈ cs := by
        rcases List.mem_cons.1 h with h | h
        · exact absurd h.symm hc
        · exact h
      obtain ⟨ih1, ih2⟩ := ih hx
      constructor
      · simp only [splitFirstChars, if_neg hc]
        intro hmem
        rcases List.mem_cons.1 hmem with h' | h'
        · exact hc h'.symm
        · exact ih1 h'
      · simp only [splitFirstChars, if_neg hc]
        conv_lhs => rw [ih2]
        rfl

/-! splitChars lemmas -/

lemma splitChars_ne_nil {sep : Char} (cs : List Char) : splitChars sep cs ≠ [] := by
  cases cs with
  | nil => simp [splitChars]
  | cons c cs =>
    rw [splitChars]
    by_cases hc : c = sep <;> simp [hc]

lemma splitChars_no_sep {sep : Char} :
    ∀ {cs : List Char}, sep ∉ cs → splitChars sep cs = [cs] := by
  intro cs
  induction cs with
  | nil => intro _; rfl
  | cons c cs ih =>
    intro h
    have hcs : ¬ c = sep := fun hc => h (hc ▸ List.mem_cons_self _ _)
    rw [splitChars, ih (fun hm => h (List.mem_cons_of_mem _ hm))]
    simp [hcs]

lemma splitChars_append_sep {sep : Char} :
    ∀ {x : List Char} (z : List Char), sep ∉ x →
      splitChars sep (x ++ sep :: z) = x :: splitChars sep z := by
  intro x
  induction x with
  | nil =>
    intro z _
    rw [List.nil_append, splitChars]
    simp
  | cons c x ih =>
    intro z h
    have hcs : ¬ c = sep := fun hc => h (hc ▸ List.mem_cons_self _ _)
    rw [List.cons_append, splitChars, ih z (fun hm => h (List.mem_cons_of_mem _ hm))]
    simp [hcs]

lemma mem_splitChars_no_sep {sep : Char} :
    ∀ (cs part : List Char), part ∈ splitChars sep cs → sep ∉ part := by
  intro cs
  induction cs with
  | nil =>
    intro part h
    simp only [splitChars, List.mem_singleton] at h
    subst h
    exact List.not_mem_nil sep
  | cons c cs ih =>
    intro part h
    rw [splitChars] at h
    rcases hs : splitChars sep cs with _ | ⟨t, ts⟩
    · exact absurd hs (splitChars_ne_nil cs)
    · rw [hs] at h
      by_cases hc : c = sep
      · rw [if_pos hc] at h
        rcases List.mem_cons.1 h with h | h
        · subst h; exact List.not_mem_nil sep
        · exact ih part (hs ▸ h)
      · rw [if_neg hc] at h
        simp only [List.headI_cons, List.tail_cons] at h
        rcases List.mem_cons.1 h with h | h
        · subst h
          intro hmem
          rcases List.mem_cons.1 hmem with h' | h'
          · exact hc h'.symm
          · exact ih t (hs ▸ List.mem_cons_self _ _) h'
        · exact ih part (hs ▸ List.mem_cons_of_mem _ h)

lemma intercalate_cons₂ {sep : Char} (x y : List Char) (rest : List (List Char)) :
    List.intercalate [sep] (x :: y :: rest) =
      x ++ sep :: List.intercalate [sep] (y :: rest) := by
  simp [List.intercalate, List.intersperse]

lemma splitChars_intercalate {sep : Char} :
    ∀ (parts : List (List Char)), parts ≠ [] → (∀ p ∈ parts, sep ∉ p) →
      splitChars sep (List.intercalate [sep] parts) = parts := by
  intro parts
  induction parts with
  | nil => intro h _; exact absurd rfl h
  | cons x rest ih =>
    intro _ hns
    cases rest with
    | nil =>
      have : List.intercalate [sep] [x] = x := by simp [List.intercalate]
      rw [this, splitChars_no_sep (hns x (List.mem_cons_self _ _))]
    | cons y rest' =>
      rw [intercalate_cons₂, splitChars_append_sep _ (hns x (List.mem_cons_self _ _)),
        ih (by simp) (fun p hp => hns p (List.mem_cons_of_mem _ hp))]

/-! ## Parser lemmas: tokens -/

lemma pyContains_iff {sep : Char} {s : String} :
    pyContains sep s = true ↔ sep ∈ s.data := by
  unfold pyContains
  rw [List.any_eq_true]
  constructor
  · rintro ⟨x, hx, hxe⟩
    have hxs : x = sep := by simpa using hxe
    exact hxs ▸ hx
  · intro h
    exact ⟨sep, h, by simp⟩

lemma allSpace_data {w : String} (hw : allSpace w = true) :
    ∀ c ∈ w.data, isPySpace c = true := by
  intro c hc
  exact List.all_eq_true.1 hw c hc

lemma except_bind_ok {ε α β : Type} (a : α) (f : α → Except ε β) :
    (Except.ok a : Except ε α).bind f = f a := rfl

lemma except_bind_error {ε α β : Type} (e : ε) (f : α → Except ε β) :
    (Except.error e : Except ε α).bind f = .error e := rfl

/-- `tokenTableCount` on a token containing `:`, written through the
character-level primitives. -/
lemma tokenTableCount_colon {dc : Option Int} {u : String}
    (h : pyContains ':' u = true) :
    tokenTableCount dc u =
      match pyInt ⟨stripChars (splitFirstChars ':' u.data).2⟩ with
      | none => .error (.valueError u)
      | some c => .ok (⟨stripChars (splitFirstChars ':' u.data).1⟩, c) := by
  unfold tokenTableCount
  rw [if_pos h]
  rfl

/-- Stripping the whole token before locating the first `:` does not change
the re-stripped components. -/
lemma splitFirst_strip_eq {cs : List Char} (h : ':' ∈ cs) :
    stripChars (splitFirstChars ':' (stripChars cs)).1 =
        stripChars (splitFirstChars ':' cs).1 ∧
      stripChars (splitFirstChars ':' (stripChars cs)).2 =
        stripChars (splitFirstChars ':' cs).2 := by
  obtain ⟨wl, wr, h1, h2, hdec⟩ := stripChars_decomp cs
  have hcore : ':' ∈ stripChars cs := (mem_stripChars_iff isPySpace_colon cs).2 h
  have hwl : ':' ∉ wl := not_mem_space isPySpace_colon h1
  have hcwr : ':' ∈ stripChars cs ++ wr := List.mem_append_left _ hcore
  have hsplit : splitFirstChars ':' cs =
      (wl ++ (splitFirstChars ':' (stripChars cs)).1,
       (splitFirstChars ':' (stripChars cs)).2 ++ wr) := by
    conv_lhs => rw [hdec]
    rw [splitFirstChars_prepend hwl hcwr, splitFirstChars_append_of_mem wr hcore]
  rw [hsplit]
  exact ⟨(stripChars_append_left h1).symm, (stripChars_append_right h2).symm⟩

/-- Padding a token with whitespace — around the token and around its first
`:` separator — does not change a successful table/count computation. -/
lemma tokenTableCount_pad {dc : Option Int} {tok w1 w2 w3 w4 : String}
    (hw1 : allSpace w1 = true) (hw2 : allSpace w2 = true)
    (hw3 : allSpace w3 = true) (hw4 : allSpace w4 = true) :
    ∀ res, tokenTableCount dc (pyStrip tok) = .ok res →
      tokenTableCount dc (pyStrip (padToken w1 w2 w3 w4 tok)) = .ok res := by
  intro res hres
  by_cases hcol : pyContains ':' tok = true
  · -- `tablename:count` token
    have hmem : ':' ∈ tok.data := pyContains_iff.1 hcol
    obtain ⟨hA, hdecA⟩ := splitFirstChars_decomp hmem
    have hpad : padToken w1 w2 w3 w4 tok =
        w1 ++ (pySplitFirst ':' tok).1 ++ w2 ++ ":" ++ w3 ++ (pySplitFirst ':' tok).2 ++ w4 := by
      unfold padToken
      rw [if_pos hcol]
    set A := (splitFirstChars ':' tok.data).1 with hAdef
    set B := (splitFirstChars ':' tok.data).2 with hBdef
    have hpdata : (padToken w1 w2 w3 w4 tok).data =
        (w1.data ++ (A ++ w2.data)) ++ ':' :: (w3.data ++ (B ++ w4.data)) := by
      rw [hpad]
      simp only [String.data_append]
      have e1 : (pySplitFirst ':' tok).1.data = A := rfl
      have e2 : (pySplitFirst ':' tok).2.data = B := rfl
      rw [e1, e2]
      simp [List.append_assoc]
    have hxs : ':' ∉ w1.data ++ (A ++ w2.data) := by
      intro hx
      rcases List.mem_append.1 hx with hx | hx
      · exact not_mem_space isPySpace_colon (allSpace_data hw1) hx
      · rcases List.mem_append.1 hx with hx | hx
        · exact hA hx
        · exact not_mem_space isPySpace_colon (allSpace_data hw2) hx
    have hsplitpad : splitFirstChars ':' (padToken w1 w2 w3 w4 tok).data =
        (w1.data ++ (A ++ w2.data), w3.data ++ (B ++ w4.data)) := by
      rw [hpdata]
      exact splitFirstChars_append_sep _ hxs
    have hmempad : ':' ∈ (padToken w1 w2 w3 w4 tok).data := by
      rw [hpdata]
      exact List.mem_append_right _ (List.mem_cons_self _ _)
    -- both token computations reduce to the same stripped components
    have hcolpad : pyContains ':' (pyStrip (padToken w1 w2 w3 w4 tok)) = true := by
      rw [pyContains_iff]
      exact (mem_stripChars_iff isPySpace_colon _).2 hmempad
    have hcoltok : pyContains ':' (pyStrip tok) = true := by
      rw [pyContains_iff]
      exact (mem_stripChars_iff isPySpace_colon _).2 hmem
    have hstrippad := splitFirst_strip_eq hmempad
    have hstriptok := splitFirst_strip_eq hmem
    have hcomp1 : stripChars (splitFirstChars ':' (pyStrip (padToken w1 w2 w3 w4 tok)).data).1 =
        stripChars (splitFirstChars ':' (pyStrip tok).data).1 := by
      show stripChars (splitFirstChars ':' (stripChars (padToken w1 w2 w3 w4 tok).data)).1 =
        stripChars (splitFirstChars ':' (stripChars tok.data)).1
      rw [hstrippad.1, hstriptok.1, hsplitpad]
      show stripChars (w1.data ++ (A ++ w2.data)) = stripChars A
      rw [stripChars_append_left (allSpace_data hw1),
        stripChars_append_right (allSpace_data hw2)]
    have hcomp2 : stripChars (splitFirstChars ':' (pyStrip (padToken w1 w2 w3 w4 tok)).data).2 =
        stripChars (splitFirstChars ':' (pyStrip tok).data).2 := by
      show stripChars (splitFirstChars ':' (stripChars (padToken w1 w2 w3 w4 tok).data)).2 =
        stripChars (splitFirstChars ':' (stripChars tok.data)).2
      rw [hstrippad.2, hstriptok.2, hsplitpad]
      show stripChars (w3.data ++ (B ++ w4.data)) = stripChars B
      rw [stripChars_append_left (allSpace_data hw3),
        stripChars_append_right (allSpace_data hw4)]
    rw [tokenTableCount_colon hcoltok] at hres
    rw [tokenTableCount_colon hcolpad, hcomp1, hcomp2]
    rcases hpi : pyInt ⟨stripChars (splitFirstChars ':' (pyStrip tok).data).2⟩ with _ | c
    · rw [hpi] at hres
      cases hres
    · rw [hpi] at hres
      exact hres
  · -- bare token: the stripped padded token is the stripped token
    have hcolb : pyContains ':' tok = false := by
      simpa using hcol
    have hpad : padToken w1 w2 w3 w4 tok = w1 ++ tok ++ w2 := by
      unfold padToken
      rw [if_neg (by rw [hcolb]; exact Bool.false_ne_true)]
    have hstr : pyStrip (padToken w1 w2 w3 w4 tok) = pyStrip tok := by
      rw [hpad]
      unfold pyStrip
      congr 1
      rw [String.data_append, String.data_append]
      exact stripChars_pad (allSpace_data hw1) (allSpace_data hw2)
    rw [hstr]
    exact hres

/-- Propagating per-token success through the parser loop. -/
lemma goTokens_ok_congr {dc : Option Int} :
    ∀ {l l' : List String},
      List.Forall₂ (fun u u' => ∀ res, tokenTableCount dc u = .ok res →
        tokenTableCount dc u' = .ok res) l l' →
      ∀ acc m, goTokens dc l acc = .ok m → goTokens dc l' acc = .ok m := by
  intro l l' hf
  induction hf with
  | nil => intro acc m h; exact h
  | @cons u u' l₀ l₀' hrel _ ih =>
    intro acc m h
    rw [goTokens] at h
    rcases htc : tokenTableCount dc u with e | tc
    · rw [htc, except_bind_error] at h
      cases h
    · rw [htc, except_bind_ok] at h
      by_cases hmem : tc.1 ∈ ALL_TABLES
      · rw [if_pos hmem] at h
        rw [goTokens, hrel tc htc, except_bind_ok, if_pos hmem]
        exact ih _ _ h
      · rw [if_neg hmem] at h
        cases h

lemma forall₂_strip_pad {dc : Option Int} :
    ∀ (toks : List String) (pads : List (String × String × String × String)),
      pads.length = toks.length →
      (∀ p ∈ pads, allSpace p.1 ∧ allSpace p.2.1 ∧ allSpace p.2.2.1 ∧ allSpace p.2.2.2) →
      List.Forall₂ (fun u u' => ∀ res, tokenTableCount dc u = .ok res →
          tokenTableCount dc u' = .ok res)
        (toks.map pyStrip)
        ((List.zipWith (fun p tok => padToken p.1 p.2.1 p.2.2.1 p.2.2.2 tok) pads toks).map
          pyStrip) := by
  intro toks
  induction toks with
  | nil => intro pads _ _; simp
  | cons tok toks ih =>
    intro pads hlen hsp
    cases pads with
    | nil => simp at hlen
    | cons q pads' =>
      obtain ⟨hq1, hq2, hq3, hq4⟩ := hsp q (List.mem_cons_self _ _)
      refine List.Forall₂.cons (tokenTableCount_pad hq1 hq2 hq3 hq4) ?_
      exact ih pads' (by simpa using hlen) (fun p hp => hsp p (List.mem_cons_of_mem _ hp))

lemma padToken_no_comma {tok : String} {w1 w2 w3 w4 : String}
    (h : ',' ∉ tok.data)
    (hw1 : allSpace w1 = true) (hw2 : allSpace w2 = true)
    (hw3 : allSpace w3 = true) (hw4 : allSpace w4 = true) :
    ',' ∉ (padToken w1 w2 w3 w4 tok).data := by
  by_cases hcol : pyContains ':' tok = true
  · have hmem : ':' ∈ tok.data := pyContains_iff.1 hcol
    obtain ⟨hA, hdecA⟩ := splitFirstChars_decomp hmem
    unfold padToken
    rw [if_pos hcol]
    simp only [String.data_append]
    intro hx
    have hAd : ',' ∉ (splitFirstChars ':' tok.data).1 := by
      intro hc
      exact h (hdecA ▸ List.mem_append_left _ hc)
    have hBd : ',' ∉ (splitFirstChars ':' tok.data).2 := by
      intro hc
      exact h (hdecA ▸ List.mem_append_right _ (List.mem_cons_of_mem _ hc))
    simp only [List.mem_append] at hx
    rcases hx with (((((hx | hx) | hx) | hx) | hx) | hx) | hx
    · exact not_mem_space isPySpace_comma (allSpace_data hw1) hx
    · exact hAd hx
    · exact not_mem_space isPySpace_comma (allSpace_data hw2) hx
    · simp at hx
    · exact not_mem_space isPySpace_comma (allSpace_data hw3) hx
    · exact hBd hx
    · exact not_mem_space isPySpace_comma (allSpace_data hw4) hx
  · unfold padToken
    rw [if_neg (by simpa using hcol)]
    simp only [String.data_append]
    intro hx
    rcases List.mem_append.1 hx with hx | hx
    · rcases List.mem_append.1 hx with hx | hx
      · exact not_mem_space isPySpace_comma (allSpace_data hw1) hx
      · exact h hx
    · exact not_mem_space isPySpace_comma (allSpace_data hw2) hx

lemma pySplit_joinTokens (parts : List String) (hne : parts ≠ [])
    (hnc : ∀ u ∈ parts, ',' ∉ u.data) :
    pySplit ',' (joinTokens parts) = parts := by
  unfold pySplit joinTokens
  have hd : (⟨List.intercalate [','] (parts.map String.data)⟩ : String).data =
      List.intercalate [','] (parts.map String.data) := rfl
  rw [hd, splitChars_intercalate (parts.map String.data)
    (by simpa using hne)
    (by intro p hp; rcases List.mem_map.1 hp with ⟨u, hu, rfl⟩; exact hnc u hu)]
  rw [List.map_map]
  have hid : ((fun cs => (⟨cs⟩ : String)) ∘ String.data) = id := by
    funext s
    rfl
  rw [hid, List.map_id]

lemma mem_zipWith_exists {α β γ : Type} {f : α → β → γ} :
    ∀ {l : List α} {l' : List β} {x : γ}, x ∈ List.zipWith f l l' →
      ∃ a b, a ∈ l ∧ b ∈ l' ∧ x = f a b := by
  intro l
  induction l with
  | nil => intro l' x h; simp at h
  | cons a l ih =>
    intro l' x h
    cases l' with
    | nil => simp at h
    | cons b l' =>
      rw [List.zipWith_cons_cons] at h
      rcases List.mem_cons.1 h with h | h
      · exact ⟨a, b, List.mem_cons_self _ _, List.mem_cons_self _ _, h⟩
      · obtain ⟨a', b', ha, hb, hx⟩ := ih h
        exact ⟨a', b', List.mem_cons_of_mem _ ha, List.mem_cons_of_mem _ hb, hx⟩

lemma goTokens_accepted_prefix {dc : Option Int} :
    ∀ (good : List String), (∀ g ∈ good, TokenAccepted dc g) →
      ∀ (l : List String) (acc : List (String × Int)),
        ∃ acc', goTokens dc (good ++ l) acc = goTokens dc l acc' := by
  intro good
  induction good with
  | nil => intro _ l acc; exact ⟨acc, rfl⟩
  | cons g good ih =>
    intro hg l acc
    obtain ⟨tc, htc, hmem⟩ := hg g (List.mem_cons_self _ _)
    obtain ⟨acc', hacc⟩ := ih (fun u hu => hg u (List.mem_cons_of_mem _ hu)) l
      (dictAssign acc tc.1 tc.2)
    refine ⟨acc', ?_⟩
    rw [List.cons_append, goTokens, htc, except_bind_ok, if_pos hmem, hacc]

/-- **C6**: `parse_table_spec("all", None)` yields the full eight-table
enumeration, each mapped to its built-in default count; a bare `tablename`
token resolves to the supplied `default_count` exactly when that is provided
and non-zero, and to the table's built-in default otherwise; and
`parse("companies:50,contacts", 100)` yields
`{companies: 50, contacts: 100}`. -/
theorem parse_table_spec_defaults :
    parse_table_spec "all" none =
        .ok (ALL_TABLES.map (fun t => (t, defaultCountOf t))) ∧
      (∀ (dc : Option Int) (tok : String), pyContains ':' tok = false →
        tokenTableCount dc tok =
          .ok (pyStrip tok,
            dc.elim (defaultCountOf (pyStrip tok))
              (fun d => if d = 0 then defaultCountOf (pyStrip tok) else d))) ∧
      parse_table_spec "companies:50,contacts" (some 100) =
        .ok [("companies", 50), ("contacts", 100)] := by
  refine ⟨rfl, ?_, rfl⟩
  intro dc tok h
  unfold tokenTableCount
  rw [if_neg (by simp [h])]
  cases dc <;> rfl

/-- Witness for C6's bare-token rule at token `"contacts"` with
`default_count = 100`. -/
theorem parse_table_spec_defaults_witness :
    tokenTableCount (some 100) "contacts" =
      .ok (pyStrip "contacts",
        (some (100 : Int)).elim (defaultCountOf (pyStrip "contacts"))
          (fun d => if d = 0 then defaultCountOf (pyStrip "contacts") else d)) :=
  parse_table_spec_defaults.2.1 (some 100) "contacts" rfl

/-- **C7 counterexample**: the spec string `"bogus:x"` contains a token whose
table name (`bogus`) is outside the enumeration, yet the parser fails with
the count conversion failure (`int("x")` raises `ValueError` before the
table-name check), not with `UnknownTableError`. -/
theorem parse_value_error_not_unknown :
    parse_table_spec "bogus:x" none = .error (.valueError "bogus:x") ∧
      isUnknownTableErr (parse_table_spec "bogus:x" none) = false :=
  ⟨rfl, rfl⟩

/-- **C7 (amended)**: scanning tokens left to right, if every earlier token
is accepted and a token's table name falls outside the fixed enumeration
while its count (when present) parses as an integer, `parse_table_spec`
fails with `UnknownTableError` naming that table name and returns no partial
result.  (A token with a malformed count aborts earlier with the `int()`
conversion error instead — see the counterexample.) -/
theorem parse_unknown_table_error (dc : Option Int) (s : String)
    (good : List String) (bad : String) (rest : List String)
    (tbl : String) (c : Int)
    (hdec : tokensListOf s = good ++ bad :: rest)
    (hgood : ∀ g ∈ good, TokenAccepted dc g)
    (hbad : tokenTableCount dc bad = .ok (tbl, c))
    (hunk : tbl ∉ ALL_TABLES) :
    parse_table_spec s dc = .error (.unknownTable tbl) := by
  unfold parse_table_spec
  rw [hdec]
  obtain ⟨acc', hacc⟩ := goTokens_accepted_prefix good hgood (bad :: rest) []
  rw [hacc, goTokens, hbad, except_bind_ok, if_neg hunk]

/-- Witness for the amended C7 at the spec string `"companies:50,bogus"`. -/
theorem parse_unknown_table_error_witness :
    parse_table_spec "companies:50,bogus" none = .error (.unknownTable "bogus") :=
  parse_unknown_table_error none "companies:50,bogus" ["companies:50"] "bogus" []
    "bogus" 100 rfl
    (by
      intro g hg
      rw [List.mem_singleton] at hg
      subst hg
      exact ⟨("companies", 50), rfl, by decide⟩)
    rfl (by decide)

/-- **C8 counterexample**: surrounding the literal token `all` with
whitespace changes the outcome — `" all "` is rejected as an unknown table
name while the unpadded `"all"` expands to the full enumeration. -/
theorem parse_padded_all_rejected :
    parse_table_spec " all " none = .error (.unknownTable "all") ∧
      parse_table_spec "all" none =
        .ok (ALL_TABLES.map (fun t => (t, defaultCountOf t))) :=
  ⟨rfl, rfl⟩

/-- **C8 (amended)**: the `all` comparison is case-insensitive on the whole
argument, and whitespace around `tablename`/`tablename:count` tokens and
around the `:` separator is ignored: padding every token (and separator)
with whitespace yields the same count mapping — *except* that the literal
`all` form must be the exact, unpadded argument; a padded `" all "` falls
through to token parsing and is rejected as an unknown table (see the
counterexample). -/
theorem parse_whitespace_padding :
    (∀ (u : String) (dc : Option Int), pyLower u = "all" →
        parse_table_spec u dc = parse_table_spec "all" dc) ∧
      ∀ (s s' : String) (dc : Option Int)
        (pads : List (String × String × String × String)),
        s' = joinTokens (List.zipWith
          (fun p tok => padToken p.1 p.2.1 p.2.2.1 p.2.2.2 tok) pads (pySplit ',' s)) →
        pads.length = (pySplit ',' s).length →
        (∀ p ∈ pads, allSpace p.1 ∧ allSpace p.2.1 ∧ allSpace p.2.2.1 ∧
          allSpace p.2.2.2) →
        pyLower s ≠ "all" → pyLower s' ≠ "all" →
        ∀ m, parse_table_spec s dc = .ok m → parse_table_spec s' dc = .ok m := by
  constructor
  · intro u dc h
    unfold parse_table_spec tokensListOf
    rw [if_pos h, if_pos (show pyLower "all" = "all" from rfl)]
  · intro s s' dc pads hs' hlen hsp hall hall' m hok
    have htoksfree : ∀ u ∈ pySplit ',' s, ',' ∉ u.data := by
      intro u hu
      unfold pySplit at hu
      rcases List.mem_map.1 hu with ⟨cs, hcs, rfl⟩
      exact mem_splitChars_no_sep _ cs hcs
    have htoks'free : ∀ u ∈ List.zipWith
        (fun p tok => padToken p.1 p.2.1 p.2.2.1 p.2.2.2 tok) pads (pySplit ',' s),
        ',' ∉ u.data := by
      intro u hu
      obtain ⟨p, tok, hp, htok, rfl⟩ := mem_zipWith_exists hu
      obtain ⟨h1, h2, h3, h4⟩ := hsp p hp
      exact padToken_no_comma (htoksfree tok htok) h1 h2 h3 h4
    have htoksne : pySplit ',' s ≠ [] := by
      unfold pySplit
      intro h
      exact splitChars_ne_nil s.data (by simpa using h)
    have hlen' : (List.zipWith
        (fun p tok => padToken p.1 p.2.1 p.2.2.1 p.2.2.2 tok) pads
          (pySplit ',' s)).length = (pySplit ',' s).length := by
      rw [List.length_zipWith, hlen, Nat.min_self]
    have htoks'ne : List.zipWith
        (fun p tok => padToken p.1 p.2.1 p.2.2.1 p.2.2.2 tok) pads
          (pySplit ',' s) ≠ [] := by
      intro h
      rw [h] at hlen'
      exact htoksne (List.eq_nil_of_length_eq_zero hlen'.symm)
    have hsplit' : pySplit ',' s' = List.zipWith
        (fun p tok => padToken p.1 p.2.1 p.2.2.1 p.2.2.2 tok) pads (pySplit ',' s) := by
      rw [hs']
      exact pySplit_joinTokens _ htoks'ne htoks'free
    have hTL : tokensListOf s = (pySplit ',' s).map pyStrip := by
      unfold tokensListOf
      rw [if_neg hall]
    have hTL' : tokensListOf s' = (List.zipWith
        (fun p tok => padToken p.1 p.2.1 p.2.2.1 p.2.2.2 tok) pads
          (pySplit ',' s)).map pyStrip := by
      unfold tokensListOf
      rw [if_neg hall', hsplit']
    unfold parse_table_spec at hok ⊢
    rw [hTL] at hok
    rw [hTL']
    exact goTokens_ok_congr (forall₂_strip_pad (pySplit ',' s) pads hlen hsp) [] m hok

/-- Witness for the amended C8: padding `"companies:50,contacts"` to
`" companies : 50 , contacts "` yields the same mapping. -/
theorem parse_whitespace_padding_witness :
    parse_table_spec " companies : 50 , contacts " (some 100) =
      .ok [("companies", 50), ("contacts", 100)] :=
  parse_whitespace_padding.2 "companies:50,contacts" " companies : 50 , contacts "
    (some 100) [(" ", " ", " ", " "), (" ", " ", "", "")]
    (by decide) rfl (by decide) (by decide) (by decide)
    [("companies", 50), ("contacts", 100)] rfl

/-! ## Generator lemmas -/

lemma pyChoice_mem {α : Type} {l : List α} {r : Nat} {x : α}
    (h : pyChoice l r = some x) : x ∈ l :=
  List.get?_mem h

lemma lookup_eq_some_of_mem :
    ∀ {l : List (Nat × Nat)}, (l.map Prod.fst).Nodup →
      ∀ {k v : Nat}, (k, v) ∈ l → List.lookup k l = some v := by
  intro l
  induction l with
  | nil => intro _ k v h; cases h
  | cons p l ih =>
    obtain ⟨a, b⟩ := p
    intro hnd k v h
    rw [List.map_cons, List.nodup_cons] at hnd
    rcases List.mem_cons.1 h with heq | hmem
    · cases heq
      simp [List.lookup]
    · have hk : (k == a) = false := by
        rw [beq_eq_false_iff_ne]
        intro hkp
        subst hkp
        exact hnd.1 (show (k, v).1 ∈ List.map Prod.fst l from
          List.mem_map_of_mem Prod.fst hmem)
      simp only [List.lookup, hk]
      exact ih hnd.2 hmem

lemma mem_of_mapM_option {α β : Type} {f : α → Option β} :
    ∀ {l : List α} {ys : List β}, l.mapM f = some ys → ∀ y ∈ ys, ∃ x ∈ l, f x = some y := by
  intro l
  induction l with
  | nil =>
    intro ys h y hy
    rw [List.mapM_nil] at h
    cases h
    cases hy
  | cons a l ih =>
    intro ys h y hy
    rw [List.mapM_cons] at h
    simp only [Option.bind_eq_bind, Option.bind_eq_some, Option.pure_def, Option.some.injEq] at h
    obtain ⟨b, hb, bs, hbs, rfl⟩ := h
    rcases List.mem_cons.1 hy with rfl | hy
    · exact ⟨a, List.mem_cons_self _ _, hb⟩
    · obtain ⟨x, hx, hfx⟩ := ih hbs y hy
      exact ⟨x, List.mem_cons_of_mem _ hx, hfx⟩

/-- One deal row satisfies the referential contract. -/
lemma genDealRow_spec {company_ids contact_ids : List Nat} {cmap : List (Nat × Nat)}
    (hkeys : ∀ p ∈ cmap, p.1 ∈ contact_ids)
    (hnd : (cmap.map Prod.fst).Nodup) {did r1 r2 : Nat} {d : Deal}
    (h : genDealRow company_ids cmap did r1 r2 = some d) :
    d.company_id ∈ company_ids ∧
      (∀ c, d.contact_id = some c → c ∈ contact_ids ∧
        List.lookup c cmap = some d.company_id) ∧
      (companyContacts cmap d.company_id = [] → d.contact_id = none) := by
  unfold genDealRow at h
  simp only [Option.bind_eq_bind, Option.bind_eq_some, Option.pure_def, Option.some.injEq] at h
  obtain ⟨cid, hcid, rfl⟩ := h
  refine ⟨pyChoice_mem hcid, ?_, ?_⟩
  · intro c hc
    simp only at hc
    by_cases hcc : (companyContacts cmap cid).isEmpty
    · rw [if_pos hcc] at hc
      cases hc
    · rw [if_neg hcc] at hc
      have hmem : c ∈ companyContacts cmap cid := pyChoice_mem hc
      unfold companyContacts at hmem
      rcases List.mem_map.1 hmem with ⟨p, hp, rfl⟩
      have hpf := List.mem_filter.1 hp
      have hp2 : p.2 = cid := by simpa using hpf.2
      have hpair : (p.1, cid) ∈ cmap := by
        have : p = (p.1, cid) := by
          cases p
          simpa using hp2
        exact this ▸ hpf.1
      exact ⟨hkeys p hpf.1, lookup_eq_some_of_mem hnd hpair⟩
  · intro hempty
    simp only [hempty]
    rfl

/-- **C3**: every deal produced by `generate_deals` references a company from
the supplied pool; when a contact is set it belongs to the contact pool and
the contact→company map records exactly the deal's company for it; and a
company with no contacts in the map yields a null contact. -/
theorem generate_deals_referential
    (company_ids contact_ids : List Nat) (cmap : List (Nat × Nat))
    (ids : Nat → Nat) (rnd : Nat → Nat × Nat) (count : Nat) (ds : List Deal)
    (hkeys : ∀ p ∈ cmap, p.1 ∈ contact_ids)
    (hnd : (cmap.map Prod.fst).Nodup)
    (hgen : generate_deals company_ids contact_ids cmap ids rnd count = some ds) :
    ∀ d ∈ ds, d.company_id ∈ company_ids ∧
      (∀ c, d.contact_id = some c → c ∈ contact_ids ∧
        List.lookup c cmap = some d.company_id) ∧
      (companyContacts cmap d.company_id = [] → d.contact_id = none) := by
  intro d hd
  obtain ⟨i, _, hrow⟩ := mem_of_mapM_option hgen d hd
  exact genDealRow_spec hkeys hnd hrow

/-- Witness for C3 at a concrete one-deal run. -/
theorem generate_deals_referential_witness :
    (({ id := 300, company_id := 5, contact_id := some 9 } : Deal).company_id ∈ [5]) ∧
      9 ∈ [9] ∧
      List.lookup 9 [(9, 5)] =
        some ({ id := 300, company_id := 5, contact_id := some 9 } : Deal).company_id :=
  have h := generate_deals_referential [5] [9] [(9, 5)] (fun i => 300 + i)
    (fun i => (i, i)) 1 [{ id := 300, company_id := 5, contact_id := some 9 }]
    (by decide) (by decide) rfl
    { id := 300, company_id := 5, contact_id := some 9 } (List.mem_singleton.2 rfl)
  ⟨h.1, h.2.1 9 rfl⟩

lemma emailLoop_not_mem {r : ContactRand} {used : List String} :
    ∀ {fuel k : Nat} {e : String}, emailLoop r used fuel k = some e → e ∉ used := by
  intro fuel
  induction fuel with
  | zero => intro k e h; cases h
  | succ f ih =>
    intro k e h
    rw [emailLoop] at h
    by_cases hm : emailAttempt r k ∈ used
    · rw [if_pos hm] at h
      exact ih h
    · rw [if_neg hm] at h
      cases h
      exact hm

lemma genContactsAux_emails {company_ids : List Nat} {ids : Nat → Nat}
    {rnd : Nat → ContactRand} {emailFuel : Nat} :
    ∀ {n i : Nat} {used : List String} {cs : List Contact},
      genContactsAux company_ids ids rnd emailFuel n i used = some cs →
      (cs.map Contact.email).Nodup ∧ ∀ c ∈ cs, c.email ∉ used := by
  intro n
  induction n with
  | zero =>
    intro i used cs h
    cases h
    exact ⟨List.nodup_nil, by intro c hc; cases hc⟩
  | succ m ih =>
    intro i used cs h
    rw [genContactsAux] at h
    simp only [Option.bind_eq_bind, Option.bind_eq_some, Option.pure_def, Option.some.injEq] at h
    obtain ⟨cid, _, e, he, cs', hcs', rfl⟩ := h
    obtain ⟨hnd', hus'⟩ := ih hcs'
    have henot : e ∉ used := emailLoop_not_mem he
    refine ⟨?_, ?_⟩
    · rw [List.map_cons, List.nodup_cons]
      refine ⟨?_, hnd'⟩
      intro hmem
      rcases List.mem_map.1 hmem with ⟨c, hc, hce⟩
      exact hus' c hc (hce ▸ List.mem_cons_self _ _)
    · intro c hc
      rcases List.mem_cons.1 hc with rfl | hc
      · exact henot
      · exact fun hm => hus' c hc (List.mem_cons_of_mem _ hm)

lemma skuLoop_not_mem {r : ProductRand} {used : List String} :
    ∀ {fuel k : Nat} {s : String}, skuLoop r used fuel k = some s → s ∉ used := by
  intro fuel
  induction fuel with
  | zero => intro k s h; cases h
  | succ f ih =>
    intro k s h
    rw [skuLoop] at h
    by_cases hm : skuAttempt r k ∈ used
    · rw [if_pos hm] at h
      exact ih h
    · rw [if_neg hm] at h
      cases h
      exact hm

lemma genProductsAux_skus {ids : Nat → Nat} {rnd : Nat → ProductRand} {skuFuel : Nat} :
    ∀ {n i : Nat} {used : List String} {ps : List Product},
      genProductsAux ids rnd skuFuel n i used = some ps →
      (ps.map Product.sku).Nodup ∧ ∀ p ∈ ps, p.sku ∉ used := by
  intro n
  induction n with
  | zero =>
    intro i used ps h
    cases h
    exact ⟨List.nodup_nil, by intro p hp; cases hp⟩
  | succ m ih =>
    intro i used ps h
    rw [genProductsAux] at h
    simp only [Option.bind_eq_bind, Option.bind_eq_some, Option.pure_def, Option.some.injEq] at h
    obtain ⟨s, hs, ps', hps', rfl⟩ := h
    obtain ⟨hnd', hus'⟩ := ih hps'
    have hsnot : s ∉ used := skuLoop_not_mem hs
    refine ⟨?_, ?_⟩
    · rw [List.map_cons, List.nodup_cons]
      refine ⟨?_, hnd'⟩
      intro hmem
      rcases List.mem_map.1 hmem with ⟨p, hp, hpe⟩
      exact hus' p hp (hpe ▸ List.mem_cons_self _ _)
    · intro p hp
      rcases List.mem_cons.1 hp with rfl | hp
      · exact hsnot
      · exact fun hm => hus' p hp (List.mem_cons_of_mem _ hm)

lemma genDealProductsAux_pairs {deal_ids product_ids : List Nat}
    {rnd : Nat → Nat × Nat} {count : Nat} :
    ∀ {fuel i : Nat} {used : List (Nat × Nat)} {acc out : List DealProduct},
      genDealProductsAux deal_ids product_ids rnd count fuel i used acc = some out →
      (acc.map (fun x => (x.deal_id, x.product_id))).Nodup →
      (∀ x ∈ acc, (x.deal_id, x.product_id) ∈ used) →
      (out.map (fun x => (x.deal_id, x.product_id))).Nodup := by
  intro fuel
  induction fuel with
  | zero =>
    intro i used acc out h hnd _
    rw [genDealProductsAux] at h
    by_cases hc : count ≤ acc.length
    · rw [if_pos hc] at h
      cases h
      rw [List.map_reverse, List.nodup_reverse]
      exact hnd
    · rw [if_neg hc] at h
      cases h
  | succ f ih =>
    intro i used acc out h hnd hub
    rw [genDealProductsAux] at h
    by_cases hc : count ≤ acc.length
    · rw [if_pos hc] at h
      cases h
      rw [List.map_reverse, List.nodup_reverse]
      exact hnd
    · rw [if_neg hc] at h
      simp only [Option.bind_eq_bind, Option.bind_eq_some] at h
      obtain ⟨did, _, pid, _, h⟩ := h
      by_cases hm : (did, pid) ∈ used
      · rw [if_pos hm] at h
        exact ih h hnd hub
      · rw [if_neg hm] at h
        refine ih h ?_ ?_
        · rw [List.map_cons, List.nodup_cons]
          refine ⟨?_, hnd⟩
          intro hmem
          rcases List.mem_map.1 hmem with ⟨x, hx, hxe⟩
          exact hm (hxe ▸ hub x hx)
        · intro x hx
          rcases List.mem_cons.1 hx with rfl | hx
          · exact List.mem_cons_self _ _
          · exact List.mem_cons_of_mem _ (hub x hx)

/-- **C4**: within one run, no two contacts share an email, no two products
share a SKU, and no two deal-product rows share a (deal, product) pair. -/
theorem run_uniqueness :
    (∀ (company_ids : List Nat) (ids : Nat → Nat) (rnd : Nat → ContactRand)
        (emailFuel count : Nat) (cs : List Contact),
        generate_contacts company_ids ids rnd emailFuel count = some cs →
        (cs.map Contact.email).Nodup) ∧
      (∀ (ids : Nat → Nat) (rnd : Nat → ProductRand) (skuFuel count : Nat)
        (ps : List Product),
        generate_products ids rnd skuFuel count = some ps →
        (ps.map Product.sku).Nodup) ∧
      ∀ (deal_ids : List Nat) (product_data : List (Nat × Nat))
        (rnd : Nat → Nat × Nat) (fuel count : Nat) (rows : List DealProduct),
        generate_deal_products deal_ids product_data rnd fuel count = some rows →
        (rows.map (fun x => (x.deal_id, x.product_id))).Nodup := by
  refine ⟨?_, ?_, ?_⟩
  · intro company_ids ids rnd emailFuel count cs h
    exact (genContactsAux_emails h).1
  · intro ids rnd skuFuel count ps h
    exact (genProductsAux_skus h).1
  · intro deal_ids product_data rnd fuel count rows h
    exact genDealProductsAux_pairs h List.nodup_nil (by intro x hx; cases hx)

/-- Witness for C4 on concrete two-element runs of each generator. -/
theorem run_uniqueness_witness :
    (∃ cs, generate_contacts [5] sampleRand.contactIds sampleRand.contactRnd 8 2 =
        some cs ∧ (cs.map Contact.email).Nodup) ∧
      (∃ ps, generate_products sampleRand.productIds sampleRand.productRnd 8 2 =
        some ps ∧ (ps.map Product.sku).Nodup) ∧
      ∃ rows, generate_deal_products [1, 2] [(7, 10), (8, 20)] (fun i => (i, i)) 8 2 =
        some rows ∧ (rows.map (fun x => (x.deal_id, x.product_id))).Nodup := by
  refine ⟨⟨_, rfl, run_uniqueness.1 [5] sampleRand.contactIds sampleRand.contactRnd
      8 2 _ rfl⟩,
    ⟨_, rfl, run_uniqueness.2.1 sampleRand.productIds sampleRand.productRnd 8 2 _ rfl⟩,
    ⟨_, rfl, run_uniqueness.2.2 [1, 2] [(7, 10), (8, 20)] (fun i => (i, i)) 8 2 _ rfl⟩⟩

/-! ## Driver lemmas -/

lemma runTables_cons_error {store : Store} {rr : RunRand} {counts : String → Int}
    {t : String} {rest : List String} {st : DriverState} {e : DriverErr}
    (hs : driverStep store rr st t (counts t) = .error e) :
    runTables store rr counts (t :: rest) st = .error e := by
  rw [runTables, hs]

lemma runTables_cons_ok {store : Store} {rr : RunRand} {counts : String → Int}
    {t : String} {rest : List String} {st st' : DriverState}
    (hs : driverStep store rr st t (counts t) = .ok st') :
    runTables store rr counts (t :: rest) st = runTables store rr counts rest st' := by
  rw [runTables, hs]

lemma runTables_append (store : Store) (rr : RunRand) (counts : String → Int) :
    ∀ (l₁ l₂ : List String) (st : DriverState),
      runTables store rr counts (l₁ ++ l₂) st =
        (runTables store rr counts l₁ st).bind
          (fun st' => runTables store rr counts l₂ st') := by
  intro l₁
  induction l₁ with
  | nil => intro l₂ st; rfl
  | cons t l₁ ih =>
    intro l₂ st
    rcases hs : driverStep store rr st t (counts t) with e | st'
    · rw [List.cons_append, runTables_cons_error hs, runTables_cons_error hs,
        except_bind_error]
    · rw [List.cons_append, runTables_cons_ok hs, runTables_cons_ok hs, ih]

/-- The failing `driverStep`: the first required pool that is empty both in
memory and in the store aborts with `MissingPrerequisiteError` for that
table. -/
lemma driverStep_missing {store : Store} {rr : RunRand} {st : DriverState}
    {t : String} {count : Int} {i : Nat} {dep : String}
    (hdep : (REQUIRED_POOLS t).get? i = some dep)
    (hmiss : poolOf st dep = [] ∧ storePool store dep = [])
    (hearlier : ∀ j, j < i → ∀ d', (REQUIRED_POOLS t).get? j = some d' →
      poolOf st d' ≠ [] ∨ storePool store d' ≠ []) :
    driverStep store rr st t count = .error (.missingPrerequisite dep) := by
  by_cases h1 : t = "contacts"
  · subst h1
    rw [show REQUIRED_POOLS "contacts" = ["companies"] from rfl] at hdep
    cases i with
    | zero =>
      have hd : dep = "companies" := by simpa using hdep.symm
      subst hd
      have hc : st.company_ids = [] := hmiss.1
      have hs : store.ids "companies" = [] := hmiss.2
      unfold driverStep
      simp [hc, hs]
    | succ j => simp at hdep
  by_cases h2 : t = "deals"
  · subst h2
    rw [show REQUIRED_POOLS "deals" = ["companies", "contacts"] from rfl] at hdep
    cases i with
    | zero =>
      have hd : dep = "companies" := by simpa using hdep.symm
      subst hd
      have hc : st.company_ids = [] := hmiss.1
      have hs : store.ids "companies" = [] := hmiss.2
      unfold driverStep
      simp [hc, hs]
    | succ j =>
      cases j with
      | zero =>
        have hd : dep = "contacts" := by simpa using hdep.symm
        subst hd
        have hct : st.contact_ids = [] := hmiss.1
        have hcs : store.ids "contacts" = [] := hmiss.2
        have h0 := hearlier 0 (by omega) "companies" rfl
        unfold driverStep
        rcases h0 with h0 | h0
        · have hcne : st.company_ids ≠ [] := h0
          simp [hcne, hct, hcs]
        · have hsne : store.ids "companies" ≠ [] := h0
          by_cases hcomp : st.company_ids = []
          · simp [hcomp, hsne, hct, hcs]
          · simp [hcomp, hct, hcs]
      | succ j' => simp at hdep
  by_cases h3 : t = "deal_products"
  · subst h3
    rw [show REQUIRED_POOLS "deal_products" = ["deals", "products"] from rfl] at hdep
    cases i with
    | zero =>
      have hd : dep = "deals" := by simpa using hdep.symm
      subst hd
      have hc : st.deal_ids = [] := hmiss.1
      have hs : store.ids "deals" = [] := hmiss.2
      unfold driverStep
      simp [hc, hs]
    | succ j =>
      cases j with
      | zero =>
        have hd : dep = "products" := by simpa using hdep.symm
        subst hd
        have hpd : st.product_data = [] := by
          have h := hmiss.1
          have h' : st.product_data.map Prod.fst = [] := h
          exact List.map_eq_nil_iff.1 h'
        have hps : store.productPrices = [] := by
          have h := hmiss.2
          have h' : store.productPrices.map Prod.fst = [] := h
          exact List.map_eq_nil_iff.1 h'
        have h0 := hearlier 0 (by omega) "deals" rfl
        unfold driverStep
        rcases h0 with h0 | h0
        · have hdne : st.deal_ids ≠ [] := h0
          simp [hdne, hpd, hps]
        · have hsne : store.ids "deals" ≠ [] := h0
          by_cases hdeal : st.deal_ids = []
          · simp [hdeal, hsne, hpd, hps]
          · simp [hdeal, hpd, hps]
      | succ j' => simp at hdep
  by_cases h4 : t = "activities"
  · subst h4
    rw [show REQUIRED_POOLS "activities" = ["contacts"] from rfl] at hdep
    cases i with
    | zero =>
      have hd : dep = "contacts" := by simpa using hdep.symm
      subst hd
      have hc : st.contact_ids = [] := hmiss.1
      have hs : store.ids "contacts" = [] := hmiss.2
      unfold driverStep
      simp [hc, hs]
    | succ j => simp at hdep
  by_cases h5 : t = "notes"
  · subst h5
    rw [show REQUIRED_POOLS "notes" = ["contacts"] from rfl] at hdep
    cases i with
    | zero =>
      have hd : dep = "contacts" := by simpa using hdep.symm
      subst hd
      have hc : st.contact_ids = [] := hmiss.1
      have hs : store.ids "contacts" = [] := hmiss.2
      unfold driverStep
      simp [hc, hs]
    | succ j => simp at hdep
  by_cases h6 : t = "tasks"
  · subst h6
    rw [show REQUIRED_POOLS "tasks" = ["deals"] from rfl] at hdep
    cases i with
    | zero =>
      have hd : dep = "deals" := by simpa using hdep.symm
      subst hd
      have hc : st.deal_ids = [] := hmiss.1
      have hs : store.ids "deals" = [] := hmiss.2
      unfold driverStep
      simp [hc, hs]
    | succ j => simp at hdep
  · have hempty : REQUIRED_POOLS t = [] := by
      unfold REQUIRED_POOLS
      rw [if_neg h1, if_neg h2, if_neg h3, if_neg h4, if_neg h5, if_neg h6]
    rw [hempty] at hdep
    simp at hdep

/-- **C5**: if the driver reaches a plan entry whose required identifier pool
was not produced in this run and the store holds zero rows for that
prerequisite, the run fails with `MissingPrerequisiteError` for the
prerequisite — independently of every later plan entry — and the final
commit is never reached, so nothing is persisted. -/
theorem driver_missing_prerequisite_aborts
    (store : Store) (rr : RunRand) (counts : String → Int)
    (done : List String) (t : String) (rest : List String)
    (st : DriverState) (i : Nat) (dep : String)
    (hreach : runTables store rr counts done DriverState.initial = .ok st)
    (hdep : (REQUIRED_POOLS t).get? i = some dep)
    (hmiss : poolOf st dep = [] ∧ storePool store dep = [])
    (hearlier : ∀ j, j < i → ∀ d', (REQUIRED_POOLS t).get? j = some d' →
      poolOf st d' ≠ [] ∨ storePool store d' ≠ []) :
    runTables store rr counts (t :: rest) st = .error (.missingPrerequisite dep) ∧
      driveAndCommit store rr counts (done ++ t :: rest) =
        .error (.missingPrerequisite dep) := by
  have hstep : driverStep store rr st t (counts t) = .error (.missingPrerequisite dep) :=
    driverStep_missing hdep hmiss hearlier
  have hrun : runTables store rr counts (t :: rest) st =
      .error (.missingPrerequisite dep) := runTables_cons_error hstep
  refine ⟨hrun, ?_⟩
  unfold driveAndCommit
  rw [runTables_append, hreach, except_bind_ok, hrun]
  rfl

/-- Witness for C5: the plan `["contacts", "deals"]` against an empty store
with nothing generated yet aborts on the missing companies pool. -/
theorem driver_missing_prerequisite_aborts_witness :
    runTables emptyStore sampleRand (fun _ => 5) ["contacts", "deals"]
        DriverState.initial = .error (.missingPrerequisite "companies") ∧
      driveAndCommit emptyStore sampleRand (fun _ => 5)
        ([] ++ ["contacts", "deals"]) = .error (.missingPrerequisite "companies") :=
  driver_missing_prerequisite_aborts emptyStore sampleRand (fun _ => 5)
    [] "contacts" ["deals"] DriverState.initial 0 "companies"
    rfl rfl ⟨rfl, rfl⟩ (by intro j hj; omega)

/-- **C9**: every generator invoked with count 0 produces zero records and no
error (the batch handed to the persistence collaborator is empty); a
zero-count table does not by itself abort downstream tables — a plan
`[companies, products]` with zero companies still commits — while a
downstream table whose required pool ends up empty (zero-count companies
then contacts, empty store) fails through the missing-prerequisite path. -/
theorem generators_zero_count_safe :
    (∀ ids : Nat → Nat, generate_companies ids 0 = []) ∧
      (∀ (company_ids : List Nat) (ids : Nat → Nat) (rnd : Nat → ContactRand)
        (efuel : Nat), generate_contacts company_ids ids rnd efuel 0 = some []) ∧
      (∀ (ids : Nat → Nat) (rnd : Nat → ProductRand) (sfuel : Nat),
        generate_products ids rnd sfuel 0 = some []) ∧
      (∀ (company_ids contact_ids : List Nat) (cmap : List (Nat × Nat))
        (ids : Nat → Nat) (rnd : Nat → Nat × Nat),
        generate_deals company_ids contact_ids cmap ids rnd 0 = some []) ∧
      (∀ (deal_ids : List Nat) (product_data : List (Nat × Nat))
        (rnd : Nat → Nat × Nat) (fuel : Nat),
        generate_deal_products deal_ids product_data rnd fuel 0 = some []) ∧
      (∀ (contact_ids : List Nat) (rnd : Nat → Nat),
        generate_activities contact_ids rnd 0 = some []) ∧
      (∀ (contact_ids : List Nat) (rnd : Nat → Nat),
        generate_notes contact_ids rnd 0 = some []) ∧
      (∀ (deal_ids : List Nat) (rnd : Nat → Nat),
        generate_tasks deal_ids rnd 0 = some []) ∧
      (runTables emptyStore sampleRand (fun t => if t = "companies" then 0 else 1)
        ["companies", "products"] DriverState.initial).isOk = true ∧
      runTables emptyStore sampleRand (fun t => if t = "companies" then 0 else 5)
        ["companies", "contacts"] DriverState.initial =
        .error (.missingPrerequisite "companies") := by
  refine ⟨fun _ => rfl, fun _ _ _ _ => rfl, fun _ _ _ => rfl, fun _ _ _ _ _ => rfl,
    ?_, fun _ _ => rfl, fun _ _ => rfl, fun _ _ => rfl, rfl, rfl⟩
  intro deal_ids product_data rnd fuel
  cases fuel <;> rfl

/-- Witness for C10 at the concrete request `["tasks", "notes"]`. -/
theorem resolve_is_enumeration_filter_witness :
    (∀ t ∈ ["tasks", "notes"], t ∈ ALL_TABLES) ∧
      (resolve_dependencies ["tasks", "notes"] true =
          some (ALL_TABLES.filter
            (fun t => decide (t ∈ depClosure ["tasks", "notes"]))) ∧
        (ALL_TABLES.filter
          (fun t => decide (t ∈ depClosure ["tasks", "notes"]))).Nodup ∧
        ∀ ts' : List String, ts' = ["tasks", "notes"] →
          resolve_dependencies ts' true =
            resolve_dependencies ["tasks", "notes"] true) :=
  ⟨by decide, resolve_is_enumeration_filter ["tasks", "notes"] (by decide)⟩

end CrmGen
